import Mathlib

/-!
Verification of the gitingest ingestion pipeline.

This file gives a shallow embedding, in Lean 4, of the parts of the
gitingest source that the checked claims are about:

* `src/gitingest/utils/pattern_utils.py` (pattern parsing and merging),
* `src/gitingest/query_parser.py` (pattern parsing with validation, and
  branch/tag resolution from URL path segments),
* `src/gitingest/utils/git_utils.py` (`_pick_commit_sha`, `_resolve_ref_to_sha`),
* `src/gitingest/entrypoint.py` (`_clone_repo_if_remote`, `_handle_remove_readonly`),
* `src/gitingest/ingestion.py` (the bounded filesystem walker),
* `src/gitingest/utils/ingestion_utils.py` (`_should_exclude`, `_should_include`,
  `_relative_or_none`),
* `src/gitingest/schemas/filesystem.py` (`content` and `content_string`).

Python strings are modelled as Lean `String`s, Python sets of strings as
`Finset String`, raised exceptions as `Except`, and filesystem contents as an
inductive tree handed to the walker.  External effects (the `pathspec` matcher,
file reads, encoding probes) are parameters of the embedded functions.
-/

namespace Gitingest

/-! ## Python string primitives

Models of the Python `str` operations used by the embedded code:
`str.strip()`, `str.split()` (whitespace, `maxsplit=1`), and the substitution
of back-slashes by forward slashes.  Whitespace is the ASCII whitespace set
recognised by Python's `str.split` / `str.strip` on ASCII text. -/

def pyIsSpace (c : Char) : Bool :=
  c = ' ' || c = '\t' || c = '\n' || c = '\x0d' || c = '\x0b' || c = '\x0c'

/-- Model of Python `s.strip()`: remove leading and trailing whitespace. -/
def pyStrip (s : String) : String :=
  ⟨((s.data.dropWhile pyIsSpace).reverse.dropWhile pyIsSpace).reverse⟩

/-- Model of Python `s.split(maxsplit=1)`: skip leading whitespace, take the
first whitespace-free token, then the remainder after the separating
whitespace run (kept verbatim, trailing whitespace included).  Returns `[]`
for an all-whitespace string, a one-element list when there is no second
field. -/
def pySplitMax1 (s : String) : List String :=
  let cs := s.data.dropWhile pyIsSpace
  if cs = [] then []
  else
    let tok := cs.takeWhile (fun c => !pyIsSpace c)
    let rest := (cs.dropWhile (fun c => !pyIsSpace c)).dropWhile pyIsSpace
    if rest = [] then [⟨tok⟩] else [⟨tok⟩, ⟨rest⟩]

/-- Model of `p.replace("\\", "/")` from both `_parse_patterns` variants. -/
def normalizeSlashes (s : String) : String :=
  ⟨s.data.map (fun c => if c = '\\' then '/' else c)⟩

/-- Split a character list at every character satisfying `p`, keeping empty
chunks, exactly as Python's `re.split` on a single-character alternative:
`",a,,b" ↦ ["", "a", "", "b"]` and `"" ↦ [""]`. -/
def splitChars (p : Char → Bool) : List Char → List (List Char)
  | [] => [[]]
  | c :: cs =>
    let r := splitChars p cs
    if p c then [] :: r
    else
      match r with
      | [] => [[c]]
      | t :: ts => (c :: t) :: ts

/-- Split a string at every character satisfying `p` (Python `re.split` on a
one-character class, empty chunks kept). -/
def pySplit (p : Char → Bool) (s : String) : List String :=
  (splitChars p s.data).map (fun l => (⟨l⟩ : String))

/-- Model of Python `s.endswith(t)`. -/
def pyEndsWith (s t : String) : Bool :=
  t.data.isSuffixOf s.data

end Gitingest

namespace Gitingest.PatternUtils

/-! ## `src/gitingest/utils/pattern_utils.py` -/

/-- Separator class of `_PATTERN_SPLIT_RE = re.compile(r"[,\s]+")`: a comma or
any whitespace character.  Splitting on single characters and later dropping
empty tokens is equivalent to splitting on runs. -/
def isPatternSplitChar (c : Char) : Bool :=
  c = ',' || pyIsSpace c

/-- The tokens contributed by one pattern string in
`pattern_utils._parse_patterns`: split on `[,\s]+`, discard empty tokens,
normalise back-slashes.  (The `pat.strip()` in the source only removes
whitespace, which is part of the separator class, so it does not change the
resulting token list.) -/
def parsePatternTokens (pat : String) : List String :=
  ((pySplit isPatternSplitChar pat).filter (fun t => t ≠ "")).map normalizeSlashes

/-- `pattern_utils._parse_patterns`: the set comprehension
`{part.replace("\\", "/") for pat in patterns for part in SPLIT(pat) if part}`.
The `str` overload of the source wraps a lone string into a one-element list,
so the input is modelled as a list of pattern strings. -/
def parse_patterns (patterns : List String) : Finset String :=
  ((patterns.map parsePatternTokens).flatten).toFinset

/-- `DEFAULT_IGNORE_PATTERNS` from `src/gitingest/utils/ignore_patterns.py`,
transcribed literally. -/
def DEFAULT_IGNORE_PATTERNS : Finset String :=
  {"*.pyc", "*.pyo", "*.pyd", "__pycache__", ".pytest_cache", ".coverage",
   ".tox", ".nox", ".mypy_cache", ".ruff_cache", ".hypothesis", "poetry.lock",
   "Pipfile.lock", "node_modules", "bower_components", "package-lock.json",
   "yarn.lock", ".npm", ".yarn", ".pnpm-store", "bun.lock", "bun.lockb",
   "*.class", "*.jar", "*.war", "*.ear", "*.nar", ".gradle/", "build/",
   ".settings/", ".classpath", "gradle-app.setting", "*.gradle", ".project",
   "*.o", "*.obj", "*.dll", "*.dylib", "*.exe", "*.lib", "*.out", "*.a",
   "*.pdb", "*.bin", ".build/", "*.xcodeproj/", "*.xcworkspace/", "*.pbxuser",
   "*.mode1v3", "*.mode2v3", "*.perspectivev3", "*.xcuserstate", "xcuserdata/",
   ".swiftpm/", "*.gem", ".bundle/", "vendor/bundle", "Gemfile.lock",
   ".ruby-version", ".ruby-gemset", ".rvmrc", "Cargo.lock", "**/*.rs.bk",
   "target/", "pkg/", "obj/", "*.suo", "*.user", "*.userosscache",
   "*.sln.docstates", "*.nupkg", "bin/", ".git", ".svn", ".hg", ".gitignore",
   ".gitattributes", ".gitmodules", "*.svg", "*.png", "*.jpg", "*.jpeg",
   "*.gif", "*.ico", "*.pdf", "*.mov", "*.mp4", "*.mp3", "*.wav", "venv",
   ".venv", "env", ".env", "virtualenv", ".idea", ".vscode", ".vs", "*.swo",
   "*.swn", ".settings", "*.sublime-*", "*.log", "*.bak", "*.swp", "*.tmp",
   "*.temp", ".cache", ".sass-cache", ".eslintcache", ".DS_Store", "Thumbs.db",
   "desktop.ini", "build", "dist", "target", "out", "*.egg-info", "*.egg",
   "*.whl", "*.so", "site-packages", ".docusaurus", ".next", ".nuxt", "*.db",
   "*.sqlite", "*.sqlite3", "*.min.js", "*.min.css", "*.map", "*.tfstate*",
   "vendor/", "digest.txt"}

/-- `pattern_utils.process_patterns`.  The inputs model the
`str | set[str] | None` parameters as lists of pattern strings; an absent or
empty input is `[]`, matching Python truthiness (`None`, `""` and `set()` are
all falsy, and for a falsy exclude input the parsed token set is empty anyway).
Returns `(ignore_patterns_set, parsed_include)`. -/
def process_patterns (excludePatterns includePatterns : List String) :
    Finset String × Option (Finset String) :=
  let ignoreSet :=
    if excludePatterns ≠ [] then
      DEFAULT_IGNORE_PATTERNS ∪ parse_patterns excludePatterns
    else DEFAULT_IGNORE_PATTERNS
  if includePatterns ≠ [] then
    let parsedInclude := parse_patterns includePatterns
    (ignoreSet \ parsedInclude, some parsedInclude)
  else
    (ignoreSet, none)

end Gitingest.PatternUtils

namespace Gitingest.QueryParser

/-! ## `src/gitingest/query_parser.py`: `_parse_patterns` with validation

`query_parser._parse_patterns` differs from the `pattern_utils` variant: it
splits with `re.split(",| ", p)` — on single commas and single space
characters only, not on general whitespace — and it validates every token
with `_is_valid_pattern`, raising `InvalidPatternError` on failure. -/

/-- Separator of `re.split(",| ", p)`: a comma or a space character. -/
def isCommaOrSpace (c : Char) : Bool :=
  c = ',' || c = ' '

/-- Modelled from the spec: `_is_valid_pattern` is imported by
`query_parser.py` from `utils/query_parser_utils.py` but its definition is
absent from the source tree; the spec fixes the allowed alphabet as
`[A-Za-z0-9_./+*@!-]`. -/
def isValidPatternChar (c : Char) : Bool :=
  ('A' ≤ c && c ≤ 'Z') || ('a' ≤ c && c ≤ 'z') || ('0' ≤ c && c ≤ '9') ||
  c = '_' || c = '.' || c = '/' || c = '+' || c = '*' || c = '@' || c = '!' ||
  c = '-'

/-- Modelled from the spec: a pattern is valid when every character lies in
the allowed alphabet. -/
def isValidPattern (p : String) : Bool :=
  p.data.all isValidPatternChar

/-- The normalised token list of `query_parser._parse_patterns`: split each
input string on commas and spaces, drop empty tokens, replace back-slashes by
forward slashes.  (The source materialises a `set`; the list keeps the token
multiset, and only membership matters downstream.) -/
def qpTokens (patterns : List String) : List String :=
  (((patterns.map (pySplit isCommaOrSpace)).flatten).filter
    (fun t => t ≠ "")).map normalizeSlashes

/-- `query_parser._parse_patterns`: validates every normalised token and
raises `InvalidPatternError` (modelled as `Except.error` carrying an
offending token) when one contains a disallowed character.  The source
iterates a Python `set` (unspecified order); the model reports the first
offending token in input order. -/
def parse_patterns_validated (patterns : List String) :
    Except String (Finset String) :=
  match (qpTokens patterns).find? (fun t => !isValidPattern t) with
  | some bad => .error bad
  | none => .ok (qpTokens patterns).toFinset

end Gitingest.QueryParser

namespace Gitingest.GitUtils

/-! ## `src/gitingest/utils/git_utils.py`: ref → SHA resolution

`_pick_commit_sha` scans the lines of a `git ls-remote` output and
`_resolve_ref_to_sha` turns its answer into a SHA or a `ValueError`.  The
embedding takes the output lines as input (the subprocess call itself is
outside the model). -/

/-- The peeled-ref marker: an annotated tag's auxiliary `ls-remote` line ends
in the three characters caret, open brace, close brace. -/
def peeledSuffix : String := "^\x7b\x7d"

/-- `_pick_commit_sha`, with the `first_non_peeled` local threaded as an
accumulator.  A non-blank line that does not contain two
whitespace-separated fields makes the unpacking `sha, ref = ln.split(maxsplit=1)`
raise a `ValueError`, modelled as `Except.error`. -/
def _pick_commit_sha : List String → Option String → Except Unit (Option String)
  | [], firstNonPeeled => .ok firstNonPeeled
  | ln :: rest, firstNonPeeled =>
    if pyStrip ln = "" then _pick_commit_sha rest firstNonPeeled
    else
      match pySplitMax1 ln with
      | [sha, ref] =>
        if pyEndsWith ref peeledSuffix then .ok (some sha)
        else
          _pick_commit_sha rest
            (match firstNonPeeled with
             | some a => some a
             | none => some sha)
      | _ => .error ()

/-- Failure modes of `_resolve_ref_to_sha`: the `RefNotFound` `ValueError`
raised when no SHA was picked, and the propagated unpacking `ValueError` for a
malformed non-blank line. -/
inductive ResolveRefError where
  | refNotFound
  | unpackFailure
  deriving DecidableEq

/-- `_resolve_ref_to_sha` on the output lines of a successful `ls-remote`
call: `RefNotFound` when `_pick_commit_sha` produced nothing (`if not sha`
also catches an empty string). -/
def _resolve_ref_to_sha (lines : List String) : Except ResolveRefError String :=
  match _pick_commit_sha lines none with
  | .error _ => .error .unpackFailure
  | .ok none => .error .refNotFound
  | .ok (some sha) => if sha = "" then .error .refNotFound else .ok sha

/-- Claim-side view: a line is blank when it strips to the empty string. -/
def isBlankLine (ln : String) : Bool :=
  pyStrip ln == ""

/-- Claim-side view: a line is peeled when its second field ends in the
peeled-ref marker. -/
def lineIsPeeled (ln : String) : Bool :=
  match pySplitMax1 ln with
  | [_, r] => pyEndsWith r peeledSuffix
  | _ => false

/-- Claim-side view: the SHA of a line is its first whitespace-separated
field. -/
def lineSha (ln : String) : String :=
  (pySplitMax1 ln).headD ""

/-- Well-formed `ls-remote` output: every non-blank line carries a non-empty
SHA field and a ref field. -/
def WellFormedLines (lines : List String) : Prop :=
  ∀ ln ∈ lines, isBlankLine ln = false →
    (pySplitMax1 ln).length = 2 ∧ lineSha ln ≠ ""

instance : DecidablePred WellFormedLines := by
  intro lines
  unfold WellFormedLines
  infer_instance

end Gitingest.GitUtils

namespace Gitingest.Entrypoint

/-! ## `src/gitingest/entrypoint.py`: scratch-directory lifecycle

`_clone_repo_if_remote` is an async context manager: when `query.url` is set
it awaits `clone_repo`, then yields inside `try: ... finally:
shutil.rmtree(query.local_path.parent, ...)`.  The embedding records, for one
run of the context, whether `shutil.rmtree` executed.  The body's completion
is an `Except`: `.ok` for normal completion and `.error` for any exception
thrown into the generator at the yield point — an ingestion error and an
`asyncio` cancellation propagate identically through the `finally` clause.
The clone step's completion is likewise an `Except`; a clone failure is
raised by `await clone_repo(...)`, which executes before the
`try`/`finally` block is entered. -/

/-- What one run of the `_clone_repo_if_remote` context produced: the
propagated result and whether the scratch directory was removed. -/
structure ContextRun (ε α : Type) where
  result : Except ε α
  removedScratch : Bool

/-- `_clone_repo_if_remote`: clone (outside the `try`), then run the body
with the `finally`-guaranteed removal; without a URL, just run the body. -/
def _clone_repo_if_remote (ε α : Type) (hasUrl : Bool)
    (cloneResult : Except ε Unit) (body : Except ε α) : ContextRun ε α :=
  if hasUrl then
    match cloneResult with
    | .error e => ⟨.error e, false⟩
    | .ok () => ⟨body, true⟩
  else
    ⟨body, false⟩

/-- The slice of a Python exception object that `_handle_remove_readonly`
inspects: whether it is an `OSError`, and its `errno` (`none` when unset). -/
structure PyException where
  isOSError : Bool
  errnoCode : Option Int

/-- `errno.EACCES` on the POSIX targets. -/
def errnoEACCES : Int := 13

/-- `errno.EPERM` on the POSIX targets. -/
def errnoEPERM : Int := 1

/-- What `_handle_remove_readonly` did with the failure `shutil.rmtree`
reported for one path. -/
inductive RemovalAction where
  | reraised
  | madeWritableAndRetried
  deriving DecidableEq

/-- `_handle_remove_readonly`: re-raise anything that is not a
permission-denied `OSError`; otherwise `chmod` the path writable and retry
the failed operation once. -/
def _handle_remove_readonly (exc : PyException) : RemovalAction :=
  if ¬ exc.isOSError ∨ (exc.errnoCode ≠ some errnoEACCES ∧ exc.errnoCode ≠ some errnoEPERM) then
    .reraised
  else
    .madeWritableAndRetried

end Gitingest.Entrypoint

namespace Gitingest.QueryParser

/-! ## `src/gitingest/query_parser.py`: ref and subpath from URL segments

`_parse_remote_repo` (after popping `tree`/`blob`) decides whether the
remaining path segments start with a commit SHA, a tag, or a branch, and
joins whatever is left into the subpath.  `_configure_branch_or_tag` scans
prefixes of the segments against the ref list fetched from the remote; the
remote listing itself is outside the model, so the fetched list (or the
`RuntimeError` of a failed fetch) is an input. -/

/-- `"/".join(candidate_parts)`. -/
def joinSlash : List String → String
  | [] => ""
  | [x] => x
  | x :: xs => x ++ "/" ++ joinSlash xs

/-- `_is_valid_git_commit_hash` from `utils/query_parser_utils.py`: exactly
40 characters, all in `string.hexdigits`. -/
def _is_valid_git_commit_hash (commit : String) : Bool :=
  commit.data.length = 40 &&
    commit.data.all (fun c =>
      ('0' ≤ c && c ≤ '9') || ('a' ≤ c && c ≤ 'f') || ('A' ≤ c && c ≤ 'F'))

/-- The prefix-scanning loop of `_configure_branch_or_tag`: `candidate_parts`
grows one segment at a time and the first candidate whose `/`-joined form is
in the ref list is returned. -/
def findRefPrefix (refsList : List String) : List String → List String → Option (List String)
  | _, [] => none
  | acc, p :: rest =>
    if joinSlash (acc ++ [p]) ∈ refsList then some (acc ++ [p])
    else findRefPrefix refsList (acc ++ [p]) rest

/-- `_configure_branch_or_tag` when the remote listing succeeded: return the
matched ref name (if any) and the segments left after deleting the consumed
prefix (`del remaining_parts[: len(candidate_parts)]`). -/
def _configure_branch_or_tag (remainingParts refsList : List String) :
    Option String × List String :=
  match findRefPrefix refsList [] remainingParts with
  | some cand => (some (joinSlash cand), remainingParts.drop cand.length)
  | none => (none, remainingParts)

/-- `_configure_branch_or_tag` including the `RuntimeError` fallback: when
fetching the remote refs fails, the first segment is popped and optimistically
used as the ref name. -/
def configureBranchOrTagWithFetch (remainingParts : List String)
    (fetchResult : Except Unit (List String)) : Option String × List String :=
  match fetchResult with
  | .error _ =>
    match remainingParts with
    | [] => (none, [])
    | p :: rest => (some p, rest)
  | .ok refs => _configure_branch_or_tag remainingParts refs

/-- Which ref the parser bound, mirroring which of `parsed.commit`,
`parsed.tag`, `parsed.branch` was set. -/
inductive RefSelector where
  | commit (sha : String)
  | tag (name : String)
  | branch (name : String)
  | noneFound
  deriving DecidableEq

/-- The subpath update of `_parse_remote_repo`: starting from the default
`"/"`, append `"/".join(remaining_parts)` only when a commit, branch, or tag
was identified and segments remain. -/
def subpathAfter (found : Bool) (remaining : List String) : String :=
  if found ∧ remaining ≠ [] then "/" ++ joinSlash remaining else "/"

/-- The ref/subpath step of `_parse_remote_repo` on the segments after
`tree`/`blob`, with both remote listings available: a valid 40-hex first
segment is taken as the commit; otherwise tags are consulted first, then
branches. -/
def resolveRefAndSubpath (parts tags branches : List String) :
    RefSelector × String :=
  match parts with
  | [] => (.noneFound, "/")
  | p :: rest =>
    if _is_valid_git_commit_hash p then
      (.commit p, subpathAfter true rest)
    else
      match _configure_branch_or_tag parts tags with
      | (some t, afterTag) => (.tag t, subpathAfter true afterTag)
      | (none, _) =>
        match _configure_branch_or_tag parts branches with
        | (some b, afterBranch) => (.branch b, subpathAfter true afterBranch)
        | (none, remaining) => (.noneFound, subpathAfter false remaining)

/-- Claim-side: the non-empty prefixes of a segment list, shortest first. -/
def nonEmptyPrefixes : List String → List (List String)
  | [] => []
  | p :: rest => [p] :: (nonEmptyPrefixes rest).map (fun pre => p :: pre)

/-- Claim-side, as the claim states it: the longest non-empty prefix of
`parts` whose `/`-joined form is a member of the ref list. -/
def longestMatchingPrefix (refsList parts : List String) : Option (List String) :=
  (nonEmptyPrefixes parts).reverse.find? (fun pre => decide (joinSlash pre ∈ refsList))

/-- Claim-side (amended) description of the ref/subpath step: a 40-hex first
segment is the commit; otherwise the ref is the shortest non-empty prefix
whose `/`-joined form is in the tag list, then in the branch list; exactly
those segments are consumed and the rest joined as the subpath. -/
def claimResolveRef (tags branches : List String) : List String → RefSelector × String
  | [] => (.noneFound, "/")
  | p :: rest =>
    if _is_valid_git_commit_hash p then
      (.commit p, subpathAfter true rest)
    else
      match (nonEmptyPrefixes (p :: rest)).find?
          (fun pre => decide (joinSlash pre ∈ tags)) with
      | some pre => (.tag (joinSlash pre), subpathAfter true ((p :: rest).drop pre.length))
      | none =>
        match (nonEmptyPrefixes (p :: rest)).find?
            (fun pre => decide (joinSlash pre ∈ branches)) with
        | some pre =>
          (.branch (joinSlash pre), subpathAfter true ((p :: rest).drop pre.length))
        | none => (.noneFound, "/")

end Gitingest.QueryParser

namespace Gitingest.Ingestion

/-! ## `src/gitingest/ingestion.py`: the bounded filesystem walker

The walker is embedded over an inductive model of the on-disk tree
(`FSEntry`, in `iterdir` order).  The pattern filters
(`_should_exclude` / `_should_include` applied to the entry's absolute path)
are parameters of the query, as are the caps: `MAX_DIRECTORY_DEPTH`,
`MAX_FILES` and `MAX_TOTAL_SIZE_BYTES` are imported by the source from
`gitingest.config`, which is absent from the source tree, so the cap values
are modelled from the spec with the walker parametric in them.

The mutable `FileSystemNode` of the source is rebuilt functionally:
`_process_entry` is the body of the `_process_node` loop for one directory
entry, returning the optional child node, the parent-field increments, and
the updated statistics; `_process_entries` is the loop itself, threading
`stats` left to right.  Paths are absolute paths as segment lists; a child's
path is `node.path / entry_name`. -/

/-- `FileSystemNodeType` from `schemas/filesystem.py`. -/
inductive FileSystemNodeType where
  | DIRECTORY
  | FILE
  | SYMLINK
  deriving DecidableEq

/-- The fields of `FileSystemNode` that the walker reads or writes:
`(name, type, path, size, file_count, dir_count, depth, children)`. -/
inductive FileSystemNode where
  | mk (name : String) (ntype : FileSystemNodeType) (path : List String)
       (size fileCount dirCount depth : Nat)
       (children : List FileSystemNode)

def FileSystemNode.name : FileSystemNode → String
  | .mk n _ _ _ _ _ _ _ => n

def FileSystemNode.ntype : FileSystemNode → FileSystemNodeType
  | .mk _ t _ _ _ _ _ _ => t

def FileSystemNode.path : FileSystemNode → List String
  | .mk _ _ p _ _ _ _ _ => p

def FileSystemNode.size : FileSystemNode → Nat
  | .mk _ _ _ s _ _ _ _ => s

def FileSystemNode.fileCount : FileSystemNode → Nat
  | .mk _ _ _ _ fc _ _ _ => fc

def FileSystemNode.dirCount : FileSystemNode → Nat
  | .mk _ _ _ _ _ dc _ _ => dc

def FileSystemNode.depth : FileSystemNode → Nat
  | .mk _ _ _ _ _ _ d _ => d

def FileSystemNode.children : FileSystemNode → List FileSystemNode
  | .mk _ _ _ _ _ _ _ ch => ch

/-- `FileSystemStats`. -/
@[ext] structure FileSystemStats where
  totalFiles : Nat
  totalSize : Nat
  deriving DecidableEq

/-- The traversal caps.  Modelled from the spec: `MAX_DIRECTORY_DEPTH = 20`,
`MAX_FILES = 10_000`, `MAX_TOTAL_SIZE_BYTES = 500 MiB` — their defining
module `gitingest/config.py` is absent from the source tree. -/
structure Limits where
  maxDirectoryDepth : Nat
  maxFiles : Nat
  maxTotalSizeBytes : Nat

/-- Modelled from the spec: the default cap values of §4.6. -/
def defaultLimits : Limits :=
  ⟨20, 10000, 524288000⟩

/-- The walker-relevant slice of `IngestionQuery` plus the pattern filters:
`shouldExclude path` stands for
`_should_exclude(path, query.local_path, query.ignore_patterns)` and
`shouldInclude path` for the corresponding `_should_include` call; the two
`has…` flags model the Python truthiness guards `query.ignore_patterns and …`
/ `query.include_patterns and …`. -/
structure WalkQuery where
  localPath : List String
  maxFileSize : Nat
  hasIgnorePatterns : Bool
  hasIncludePatterns : Bool
  shouldExclude : List String → Bool
  shouldInclude : List String → Bool
  limits : Limits

/-- One directory entry of the on-disk tree, in `iterdir` order.  The
`is_symlink` check precedes `is_file`/`is_dir` in the source, so a symlink is
always its own case. -/
inductive FSEntry where
  | file (name : String) (size : Nat)
  | dir (name : String) (entries : List FSEntry)
  | symlink (name : String)

def FSEntry.name : FSEntry → String
  | .file n _ => n
  | .dir n _ => n
  | .symlink n => n

/-- `limit_exceeded(stats, depth)`. -/
def limit_exceeded (lim : Limits) (stats : FileSystemStats) (depth : Nat) : Bool :=
  if lim.maxDirectoryDepth < depth then true
  else if lim.maxFiles ≤ stats.totalFiles then true
  else if lim.maxTotalSizeBytes ≤ stats.totalSize then true
  else false

/-- Python `str.lower()` on ASCII names. -/
def pyLower (s : String) : String :=
  ⟨s.data.map Char.toLower⟩

/-- Python `s.startswith(t)`. -/
def pyStartsWith (s t : String) : Bool :=
  t.data.isPrefixOf s.data

/-- The `_sort_key` of `FileSystemNode.sort_children`: group priority
(0 = README file, 1 = regular file, 2 = hidden file, 3 = regular directory,
4 = hidden directory) paired with the lower-cased name. -/
def sortKey (child : FileSystemNode) : Nat × String :=
  let nm := pyLower child.name
  if child.ntype = .FILE then
    if nm = "readme" || pyStartsWith nm "readme." then (0, nm)
    else if !pyStartsWith nm "." then (1, nm) else (2, nm)
  else if !pyStartsWith nm "." then (3, nm) else (4, nm)

/-- Key comparison for the sort: lexicographic on `(priority, name)`. -/
def keyLe (a b : FileSystemNode) : Bool :=
  (sortKey a).1 < (sortKey b).1 ||
    ((sortKey a).1 = (sortKey b).1 && (sortKey a).2 ≤ (sortKey b).2)

/-- Stable insertion of a node into an already key-sorted list, placing it
after key-equal elements. -/
def insertByKey (a : FileSystemNode) : List FileSystemNode → List FileSystemNode
  | [] => [a]
  | b :: bs => if keyLe b a then b :: insertByKey a bs else a :: b :: bs

/-- `FileSystemNode.sort_children`: Python's `list.sort(key=_sort_key)` is a
stable sort by key, which any stable sort by the same key reproduces
exactly; modelled as a stable insertion sort. -/
def sort_children (children : List FileSystemNode) : List FileSystemNode :=
  children.foldl (fun acc a => insertByKey a acc) []

/-- What processing one directory entry contributed: the optional child node
appended to the parent, the increments of the parent's `size`, `file_count`
and `dir_count`, and the updated statistics. -/
structure EntryOut where
  child : Option FileSystemNode
  sizeDelta : Nat
  fileCountDelta : Nat
  dirCountDelta : Nat
  stats : FileSystemStats

/-- The two pattern-filter `continue` guards at the top of the
`_process_node` loop body, as one skip condition. -/
def filteredOut (q : WalkQuery) (subPath : List String) : Bool :=
  (q.hasIgnorePatterns && q.shouldExclude subPath) ||
    (q.hasIncludePatterns && !q.shouldInclude subPath)

/-- What one full `_process_node` loop contributed to its directory node. -/
@[ext] structure WalkOut where
  children : List FileSystemNode
  size : Nat
  fileCount : Nat
  dirCount : Nat
  stats : FileSystemStats

mutual

/-- The body of the `_process_node` loop for one entry `sub_path` of the
directory at `dirPath`/`depth`: pattern filters first, then dispatch on
symlink / file / directory.  The nested-directory case inlines the recursive
`_process_node` call: the `limit_exceeded` guard at entry, the loop over the
child's entries, the final `sort_children`, and the
"attach only if the recursion produced children" rule. -/
def _process_entry (q : WalkQuery) (dirPath : List String) (depth : Nat)
    (stats : FileSystemStats) : FSEntry → EntryOut
  | .symlink name =>
    if filteredOut q (dirPath ++ [name]) then ⟨none, 0, 0, 0, stats⟩
    else
      ⟨some (.mk name .SYMLINK (dirPath ++ [name]) 0 0 0 (depth + 1) []),
        0, 1, 0, ⟨stats.totalFiles + 1, stats.totalSize⟩⟩
  | .file name fsize =>
    if filteredOut q (dirPath ++ [name]) then ⟨none, 0, 0, 0, stats⟩
    else if q.maxFileSize < fsize then ⟨none, 0, 0, 0, stats⟩
    else if q.limits.maxFiles < stats.totalFiles + 1 then ⟨none, 0, 0, 0, stats⟩
    else if q.limits.maxTotalSizeBytes < stats.totalSize + fsize then
      ⟨none, 0, 0, 0, stats⟩
    else
      ⟨some (.mk name .FILE (dirPath ++ [name]) fsize 1 0 (depth + 1) []),
        fsize, 1, 0, ⟨stats.totalFiles + 1, stats.totalSize + fsize⟩⟩
  | .dir name entries =>
    if filteredOut q (dirPath ++ [name]) then ⟨none, 0, 0, 0, stats⟩
    else
      let res :=
        if limit_exceeded q.limits stats (depth + 1) then
          (⟨[], 0, 0, 0, stats⟩ : WalkOut)
        else
          let o := _process_entries q (dirPath ++ [name]) (depth + 1) stats entries
          ⟨sort_children o.children, o.size, o.fileCount, o.dirCount, o.stats⟩
      match res.children with
      | [] => ⟨none, 0, 0, 0, res.stats⟩
      | c :: cs =>
        ⟨some (.mk name .DIRECTORY (dirPath ++ [name]) res.size res.fileCount
            res.dirCount (depth + 1) (c :: cs)),
          res.size, res.fileCount, 1 + res.dirCount, res.stats⟩

/-- The `_process_node` loop over a directory's entries, threading `stats`
left to right and collecting the appended children and parent-field
increments. -/
def _process_entries (q : WalkQuery) (dirPath : List String) (depth : Nat)
    (stats : FileSystemStats) : List FSEntry → WalkOut
  | [] => ⟨[], 0, 0, 0, stats⟩
  | e :: rest =>
    let eo := _process_entry q dirPath depth stats e
    let ro := _process_entries q dirPath depth eo.stats rest
    ⟨(match eo.child with
      | some c => c :: ro.children
      | none => ro.children),
      eo.sizeDelta + ro.size, eo.fileCountDelta + ro.fileCount,
      eo.dirCountDelta + ro.dirCount, ro.stats⟩

end

/-- The directory branch of `ingest_query`: a fresh root node (all counters
zero, depth 0) handed to `_process_node` with fresh statistics; the returned
tree and the final statistics. -/
def walkDirectory (q : WalkQuery) (rootPath : List String)
    (entries : List FSEntry) : FileSystemNode × FileSystemStats :=
  let res :=
    if limit_exceeded q.limits ⟨0, 0⟩ 0 then (⟨[], 0, 0, 0, ⟨0, 0⟩⟩ : WalkOut)
    else
      let o := _process_entries q rootPath 0 ⟨0, 0⟩ entries
      ⟨sort_children o.children, o.size, o.fileCount, o.dirCount, o.stats⟩
  (.mk (rootPath.getLastD "") .DIRECTORY rootPath res.size res.fileCount
      res.dirCount 0 res.children,
    res.stats)

/-! ### Claim-side measures over the returned tree -/

mutual

/-- Total size of the regular files in a node's subtree (a symlink
contributes zero; a directory sums its descendants). -/
def subtreeSize : FileSystemNode → Nat
  | .mk _ t _ s _ _ _ children =>
    match t with
    | .FILE => s
    | .SYMLINK => 0
    | .DIRECTORY => subtreeSizeList children

def subtreeSizeList : List FileSystemNode → Nat
  | [] => 0
  | n :: rest => subtreeSize n + subtreeSizeList rest

end

mutual

/-- Number of File-plus-Symlink nodes in a node's subtree. -/
def subtreeFiles : FileSystemNode → Nat
  | .mk _ t _ _ _ _ _ children =>
    match t with
    | .FILE => 1
    | .SYMLINK => 1
    | .DIRECTORY => subtreeFilesList children

def subtreeFilesList : List FileSystemNode → Nat
  | [] => 0
  | n :: rest => subtreeFiles n + subtreeFilesList rest

end

mutual

/-- Number of Directory nodes in a node's subtree, the node included when it
is a directory. -/
def subtreeDirs : FileSystemNode → Nat
  | .mk _ t _ _ _ _ _ children =>
    match t with
    | .FILE => 0
    | .SYMLINK => 0
    | .DIRECTORY => 1 + subtreeDirsList children

def subtreeDirsList : List FileSystemNode → Nat
  | [] => 0
  | n :: rest => subtreeDirs n + subtreeDirsList rest

end

mutual

/-- Number of File nodes (symlinks NOT counted) in a node's subtree. -/
def fileNodes : FileSystemNode → Nat
  | .mk _ t _ _ _ _ _ children =>
    match t with
    | .FILE => 1
    | .SYMLINK => 0
    | .DIRECTORY => fileNodesList children

def fileNodesList : List FileSystemNode → Nat
  | [] => 0
  | n :: rest => fileNodes n + fileNodesList rest

end

mutual

/-- C8's invariant: on every Directory node, `size` is the sum of the sizes
of its descendant File nodes, `file_count` the number of File-plus-Symlink
descendants, and `dir_count` the number of Directory descendants. -/
def GoodNode : FileSystemNode → Prop
  | .mk _ t _ s fc dc _ children =>
    GoodList children ∧
      (t = .DIRECTORY →
        s = subtreeSizeList children ∧ fc = subtreeFilesList children ∧
          dc = subtreeDirsList children)

def GoodList : List FileSystemNode → Prop
  | [] => True
  | n :: rest => GoodNode n ∧ GoodList rest

end

mutual

/-- Every path in the node's subtree extends `base`. -/
def NodeUnder (base : List String) : FileSystemNode → Prop
  | .mk _ _ p _ _ _ _ children => base <+: p ∧ NodesUnder base children

def NodesUnder (base : List String) : List FileSystemNode → Prop
  | [] => True
  | n :: rest => NodeUnder base n ∧ NodesUnder base rest

end

mutual

/-- The on-disk tree contains no symlink entries. -/
def symlinkFreeEntry : FSEntry → Bool
  | .file _ _ => true
  | .symlink _ => false
  | .dir _ entries => symlinkFreeEntries entries

def symlinkFreeEntries : List FSEntry → Bool
  | [] => true
  | e :: rest => symlinkFreeEntry e && symlinkFreeEntries rest

end

mutual

/-- The returned tree contains no Symlink nodes. -/
def noSymlinkNode : FileSystemNode → Bool
  | .mk _ t _ _ _ _ _ children =>
    match t with
    | .SYMLINK => false
    | _ => noSymlinkNodes children

def noSymlinkNodes : List FileSystemNode → Bool
  | [] => true
  | n :: rest => noSymlinkNode n && noSymlinkNodes rest

end

/-- The per-entry walker invariant: a skipped entry contributes nothing and
leaves the statistics untouched, and an appended child satisfies C8's
invariant with the parent increments and statistics advanced by exactly the
child's subtree measures. -/
def EntryInv (q : WalkQuery) (dirPath : List String) (depth : Nat)
    (stats : FileSystemStats) (e : FSEntry) : Prop :=
  ((_process_entry q dirPath depth stats e).child = none →
      _process_entry q dirPath depth stats e = ⟨none, 0, 0, 0, stats⟩)
  ∧ (∀ c, (_process_entry q dirPath depth stats e).child = some c →
      GoodNode c ∧
        _process_entry q dirPath depth stats e =
          ⟨some c, subtreeSize c, subtreeFiles c, subtreeDirs c,
            ⟨stats.totalFiles + subtreeFiles c,
              stats.totalSize + subtreeSize c⟩⟩)

/-- The per-directory walker invariant: the loop's children all satisfy C8's
invariant, the parent-field increments equal the children's subtree
measures, and the statistics advance by exactly the size and file count of
what was added. -/
def EntriesInv (q : WalkQuery) (dirPath : List String) (depth : Nat)
    (stats : FileSystemStats) (es : List FSEntry) : Prop :=
  GoodList (_process_entries q dirPath depth stats es).children
  ∧ (_process_entries q dirPath depth stats es).size =
      subtreeSizeList (_process_entries q dirPath depth stats es).children
  ∧ (_process_entries q dirPath depth stats es).fileCount =
      subtreeFilesList (_process_entries q dirPath depth stats es).children
  ∧ (_process_entries q dirPath depth stats es).dirCount =
      subtreeDirsList (_process_entries q dirPath depth stats es).children
  ∧ (_process_entries q dirPath depth stats es).stats.totalFiles =
      stats.totalFiles +
        subtreeFilesList (_process_entries q dirPath depth stats es).children
  ∧ (_process_entries q dirPath depth stats es).stats.totalSize =
      stats.totalSize +
        subtreeSizeList (_process_entries q dirPath depth stats es).children

end Gitingest.Ingestion

namespace Gitingest.IngestionUtils

/-! ## `src/gitingest/utils/ingestion_utils.py`

`_should_exclude` and `_should_include` first compute the path relative to
the base and answer outside-the-base immediately; only then do they consult
the compiled `pathspec` matcher.  The gitwildmatch matcher itself is external
(`pathspec` library) and enters the model as a parameter. -/

/-- `_relative_or_none`: `path.relative_to(base)` on pure paths (as segment
lists) succeeds exactly when `base` is a prefix. -/
def _relative_or_none (path base : List String) : Option (List String) :=
  if base.isPrefixOf path then some (path.drop base.length) else none

/-- `_should_exclude(path, base_path, ignore_patterns)`: `specMatch rel`
stands for `PathSpec.from_lines("gitwildmatch", ignore_patterns).match_file(rel)`. -/
def _should_exclude (path base : List String)
    (specMatch : List String → Bool) : Bool :=
  match _relative_or_none path base with
  | none => true
  | some rel => specMatch rel

/-- `_should_include(path, base_path, include_patterns)`: `fileMatch rel`
stands for `spec.match_file(rel_str)` and `dirKeep rel` for the
directory-keeping disjunction (trailing-slash spec match, or some parsed
pattern could match a descendant). -/
def _should_include (path base : List String) (isDir : Bool)
    (fileMatch dirKeep : List String → Bool) : Bool :=
  match _relative_or_none path base with
  | none => false
  | some rel => if isDir then dirKeep rel else fileMatch rel

end Gitingest.IngestionUtils

namespace Gitingest.FilesystemSchema

open Gitingest.Ingestion (FileSystemNodeType)

/-! ## `src/gitingest/schemas/filesystem.py`: `content` and `content_string`

The per-file record rendering.  The filesystem reads behind the `content`
property — `_read_chunk`, `_decodes`, `_get_preferred_encodings`,
`process_notebook`, and the full-file re-read — are oracles recorded per
node in a `FileData`. -/

/-- `SEPARATOR = "=" * 48`. -/
def SEPARATOR : String :=
  ⟨List.replicate 48 '='⟩

/-- The read/decode behaviour of one file: `isIpynb` is
`path.suffix == ".ipynb"`; `notebook` the outcome of `process_notebook`
(`.error` carries the exception text); `chunk` is `_read_chunk` (`none` on
`OSError`, else the first ≤ 1024 bytes); `decodes bytes enc` is
`_decodes(bytes, enc)`; `preferredEncodings` is `_get_preferred_encodings()`;
`readFull enc` the full-file read with that encoding (`.error` carries the
exception text). -/
structure FileData where
  isIpynb : Bool
  notebook : Except String String
  chunk : Option (List Nat)
  decodes : List Nat → String → Bool
  preferredEncodings : List String
  readFull : String → Except String String

/-- The fields of `FileSystemNode` that `content_string` reads: the node
type, `path_str` (relative path, `os.sep` already forward-slash), the
basename of the symlink target (`readlink(self.path).name`), and the file
oracles. -/
structure RenderNode where
  ntype : FileSystemNodeType
  pathStr : String
  linkTargetName : String
  data : FileData

/-- Python's `"\n".join(...)`. -/
def joinNewline : List String → String
  | [] => ""
  | [x] => x
  | x :: xs => x ++ "\n" ++ joinNewline xs

/-- The `content` property: a raised `ValueError` (directory node) is
`.error`; every other case returns a string, matching the source's branch
order: symlink, notebook, unreadable chunk, empty chunk, non-UTF-8 chunk,
encoding probe, full read. -/
def content (n : RenderNode) : Except String String :=
  if n.ntype = .DIRECTORY then .error "Cannot read content of a directory node"
  else .ok (
    if n.ntype = .SYMLINK then ""
    else if n.data.isIpynb then
      match n.data.notebook with
      | .ok s => s
      | .error e => "Error processing notebook: " ++ e
    else
      match n.data.chunk with
      | none => "Error reading file"
      | some c =>
        if c = [] then "[Empty file]"
        else if !n.data.decodes c "utf-8" then "[Binary file]"
        else
          match n.data.preferredEncodings.find? (fun enc => n.data.decodes c enc) with
          | none => "Error: Unable to decode file with available encodings"
          | some enc =>
            match n.data.readFull enc with
            | .ok s => s
            | .error e => "Error reading file with '" ++ enc ++ "': " ++ e)

/-- `self.type.name` of the node-type enum. -/
def kindName : FileSystemNodeType → String
  | .DIRECTORY => "DIRECTORY"
  | .FILE => "FILE"
  | .SYMLINK => "SYMLINK"

/-- The `content_string` property:
`"\n".join([SEPARATOR, f"{KIND}: {path}[ -> target]", SEPARATOR, content]) + "\n\n"`;
the `ValueError` of the directory case propagates. -/
def content_string (n : RenderNode) : Except String String :=
  (content n).map (fun body =>
    joinNewline
      [SEPARATOR,
        kindName n.ntype ++ ": " ++ n.pathStr ++
          (if n.ntype = .SYMLINK then " -> " ++ n.linkTargetName else ""),
        SEPARATOR,
        body] ++ "\n\n")

end Gitingest.FilesystemSchema

/-! # Theorems -/

namespace Gitingest.PatternUtils

lemma mem_parse_patterns {x : String} {pats : List String} :
    x ∈ parse_patterns pats ↔ ∃ p ∈ pats, x ∈ parsePatternTokens p := by
  simp [parse_patterns, List.mem_flatten]

lemma parse_patterns_nil : parse_patterns [] = ∅ := rfl

/-- C5: for every pair of caller-supplied include and exclude pattern inputs,
the final exclude set returned by `process_patterns` equals the union of the
built-in default ignore patterns and the parsed exclude patterns, minus the
parsed include patterns; consequently any pattern string supplied in both
inputs (as a single normalised token) is present in the final include set and
absent from the final exclude set. -/
theorem process_patterns_include_overrides_exclude :
    (∀ exc inc : List String,
      (process_patterns exc inc).1 =
        (DEFAULT_IGNORE_PATTERNS ∪ parse_patterns exc) \ parse_patterns inc)
    ∧ (∀ (exc inc : List String) (s : String), s ∈ exc → s ∈ inc →
        parsePatternTokens s = [s] →
        (process_patterns exc inc).2 = some (parse_patterns inc)
        ∧ s ∈ parse_patterns inc
        ∧ s ∉ (process_patterns exc inc).1) := by
  have hfst : ∀ exc inc : List String,
      (process_patterns exc inc).1 =
        (DEFAULT_IGNORE_PATTERNS ∪ parse_patterns exc) \ parse_patterns inc := by
    intro exc inc
    by_cases hinc : inc = [] <;> by_cases hexc : exc = [] <;>
      simp [process_patterns, hinc, hexc, parse_patterns_nil]
  refine ⟨hfst, ?_⟩
  intro exc inc s hse hsi htok
  have hinc : inc ≠ [] := List.ne_nil_of_mem hsi
  have hmem : s ∈ parse_patterns inc :=
    mem_parse_patterns.2 ⟨s, hsi, by simp [htok]⟩
  refine ⟨by simp [process_patterns, hinc], hmem, ?_⟩
  rw [hfst exc inc]
  simp [hmem]

/-- Witness for C5 at a concrete input: the pattern `*.md` supplied in both
the exclude and include inputs ends up in the parsed include set and out of
the final exclude set. -/
theorem process_patterns_include_overrides_exclude_witness :
    (process_patterns ["foo", "*.md"] ["*.md"]).2 = some (parse_patterns ["*.md"])
    ∧ "*.md" ∈ parse_patterns ["*.md"]
    ∧ "*.md" ∉ (process_patterns ["foo", "*.md"] ["*.md"]).1 :=
  process_patterns_include_overrides_exclude.2 ["foo", "*.md"] ["*.md"] "*.md"
    (by decide) (by decide) (by decide)

end Gitingest.PatternUtils

namespace Gitingest.QueryParser

/-- C6 counterexample: pattern parsing does not fail on every token with a
character outside `[A-Za-z0-9_./+*@!-]`, and it does not split on general
whitespace.  The `pattern_utils` variant (the one reached from the library
entrypoint) accepts `"foo?"` unchanged even though `?` is outside the allowed
alphabet, and the `query_parser` variant leaves `"a\tb"` unsplit (a tab is not
a comma or space) and then rejects it. -/
theorem parse_patterns_validation_counterexample :
    PatternUtils.parse_patterns ["foo?"] = {"foo?"}
    ∧ isValidPattern "foo?" = false
    ∧ parse_patterns_validated ["a\tb"] = .error "a\tb" :=
  ⟨by decide, by decide, by rfl⟩

lemma flatten_token_pipeline (g : String → Bool) (n : String → String)
    (split : String → List String) :
    ∀ pats : List String,
      ((pats.map (fun p => ((split p).filter g).map n)).flatten) =
        ((pats.map split).flatten.filter g).map n := by
  intro pats
  induction pats with
  | nil => simp
  | cons p ps ih => simp [List.filter_append, List.map_append, ih]

/-- C6 amended: `pattern_utils._parse_patterns` splits its input on commas
and whitespace, normalises back-slashes to forward slashes, drops empty
tokens, and never fails; character validation happens only in
`query_parser._parse_patterns`, which splits on commas and single spaces
only, normalises the same way, and fails with `InvalidPatternError` exactly
when some resulting token contains a character outside `[A-Za-z0-9_./+*@!-]`
(the validator itself is modelled from the spec, its definition being absent
from the source tree). -/
theorem parse_patterns_split_normalize_validate (pats : List String) :
    PatternUtils.parse_patterns pats =
      ((((pats.map (pySplit PatternUtils.isPatternSplitChar)).flatten).filter
        (fun t => t ≠ "")).map normalizeSlashes).toFinset
    ∧ ((∃ e, parse_patterns_validated pats = .error e) ↔
        ∃ t ∈ qpTokens pats, isValidPattern t = false)
    ∧ (∀ S, parse_patterns_validated pats = .ok S → S = (qpTokens pats).toFinset) := by
  refine ⟨?_, ?_, ?_⟩
  · unfold PatternUtils.parse_patterns PatternUtils.parsePatternTokens
    rw [flatten_token_pipeline]
  · cases hf : (qpTokens pats).find? (fun t => !isValidPattern t) with
    | none =>
      simp only [parse_patterns_validated, hf]
      constructor
      · rintro ⟨e, he⟩
        exact absurd he (by simp)
      · rintro ⟨t, ht, hv⟩
        have := List.find?_eq_none.1 hf t ht
        simp [hv] at this
    | some bad =>
      simp only [parse_patterns_validated, hf]
      constructor
      · rintro ⟨e, _⟩
        refine ⟨bad, List.mem_of_find?_eq_some hf, ?_⟩
        have := List.find?_some hf
        simpa using this
      · intro _
        exact ⟨bad, rfl⟩
  · intro S hS
    cases hf : (qpTokens pats).find? (fun t => !isValidPattern t) with
    | none =>
      simp only [parse_patterns_validated, hf] at hS
      cases hS
      rfl
    | some bad =>
      simp [parse_patterns_validated, hf] at hS

/-- Witness for C6 amended at a concrete input: parsing `"a b"` with the
validated variant succeeds and yields the token set of the split. -/
theorem parse_patterns_split_normalize_validate_witness :
    ({"a", "b"} : Finset String) = (qpTokens ["a b"]).toFinset :=
  (parse_patterns_split_normalize_validate ["a b"]).2.2 {"a", "b"} (by rfl)

end Gitingest.QueryParser

namespace Gitingest.GitUtils

lemma lineSha_of_split {ln s r : String} (h : pySplitMax1 ln = [s, r]) :
    lineSha ln = s := by
  simp [lineSha, h]

lemma pick_commit_sha_spec :
    ∀ lines : List String, WellFormedLines lines → ∀ acc : Option String,
      _pick_commit_sha lines acc =
        .ok (match (lines.filter (fun ln => !isBlankLine ln)).find? lineIsPeeled with
          | some ln => some (lineSha ln)
          | none =>
            match acc with
            | some a => some a
            | none => ((lines.filter (fun ln => !isBlankLine ln)).head?).map lineSha) := by
  intro lines
  induction lines with
  | nil => intro _ acc; cases acc <;> rfl
  | cons ln rest ih =>
    intro wf acc
    have wfrest : WellFormedLines rest := fun l hl => wf l (List.mem_cons_of_mem _ hl)
    by_cases hb : pyStrip ln = ""
    · have hbl : isBlankLine ln = true := by simp [isBlankLine, hb]
      have h1 : _pick_commit_sha (ln :: rest) acc = _pick_commit_sha rest acc := by
        simp only [_pick_commit_sha]
        rw [if_pos hb]
      have h2 : (ln :: rest).filter (fun l => !isBlankLine l) =
          rest.filter (fun l => !isBlankLine l) := by
        rw [List.filter_cons]
        simp [hbl]
      rw [h1, h2, ih wfrest acc]
    · have hbl : isBlankLine ln = false := by simp [isBlankLine, hb]
      obtain ⟨hlen, -⟩ := wf ln (List.mem_cons_self _ _) hbl
      obtain ⟨s, r, hsr⟩ : ∃ s r, pySplitMax1 ln = [s, r] := by
        cases hsp : pySplitMax1 ln with
        | nil => rw [hsp] at hlen; simp at hlen
        | cons a t =>
          cases t with
          | nil => rw [hsp] at hlen; simp at hlen
          | cons b t2 =>
            cases t2 with
            | nil => exact ⟨a, b, rfl⟩
            | cons c t3 =>
              rw [hsp] at hlen
              simp [List.length] at hlen
      have hshaln : lineSha ln = s := lineSha_of_split hsr
      have hfcons : (ln :: rest).filter (fun l => !isBlankLine l) =
          ln :: rest.filter (fun l => !isBlankLine l) := by
        rw [List.filter_cons]
        simp [hbl]
      by_cases hpe : pyEndsWith r peeledSuffix
      · have hpl : lineIsPeeled ln = true := by simp [lineIsPeeled, hsr, hpe]
        have h1 : _pick_commit_sha (ln :: rest) acc = .ok (some s) := by
          simp only [_pick_commit_sha, hsr]
          rw [if_neg hb, if_pos hpe]
        rw [h1, hfcons, List.find?_cons_of_pos _ hpl]
        simp [hshaln]
      · have hpl : lineIsPeeled ln = false := by simp [lineIsPeeled, hsr, hpe]
        have h1 : _pick_commit_sha (ln :: rest) acc =
            _pick_commit_sha rest
              (match acc with
               | some a => some a
               | none => some s) := by
          simp only [_pick_commit_sha, hsr]
          rw [if_neg hb, if_neg hpe]
        rw [h1, ih wfrest, hfcons,
          List.find?_cons_of_neg _ (by simp [hpl]), List.head?_cons]
        cases hfind : (rest.filter (fun l => !isBlankLine l)).find? lineIsPeeled with
        | some l => simp
        | none => cases acc <;> simp [hshaln]

/-- C2: on well-formed `ls-remote` output lines, `_resolve_ref_to_sha` skips
blank lines and returns the SHA of the first line whose ref ends in the
peeled marker `^{}`; if no peeled line occurs it returns the SHA of the first
non-blank line; and if no line matches at all it fails with `RefNotFound`. -/
theorem resolve_ref_picks_peeled_then_first (lines : List String)
    (wf : WellFormedLines lines) :
    _resolve_ref_to_sha lines =
      match (lines.filter (fun ln => !isBlankLine ln)).find? lineIsPeeled with
      | some ln => .ok (lineSha ln)
      | none =>
        match (lines.filter (fun ln => !isBlankLine ln)).head? with
        | some ln => .ok (lineSha ln)
        | none => .error .refNotFound := by
  have hp := pick_commit_sha_spec lines wf none
  unfold _resolve_ref_to_sha
  rw [hp]
  have hsha : ∀ ln ∈ lines.filter (fun l => !isBlankLine l), lineSha ln ≠ "" := by
    intro ln hln
    have hnb : isBlankLine ln = false := by
      have := List.of_mem_filter hln
      simpa using this
    exact (wf ln (List.mem_of_mem_filter hln) hnb).2
  cases hfind : (lines.filter (fun l => !isBlankLine l)).find? lineIsPeeled with
  | some ln =>
    have := hsha ln (List.mem_of_find?_eq_some hfind)
    simp [this]
  | none =>
    cases hhead : (lines.filter (fun l => !isBlankLine l)).head? with
    | some ln =>
      have := hsha ln (List.mem_of_mem_head? (by simp [hhead]))
      simp [this]
    | none => simp

/-- Witness for C2 at the spec's concrete example: with both the tag line and
its peeled companion present, the resolver returns the peeled SHA. -/
theorem resolve_ref_picks_peeled_then_first_witness :
    WellFormedLines ["sha1\trefs/tags/v1", "sha2\trefs/tags/v1^\x7b\x7d"]
    ∧ _resolve_ref_to_sha ["sha1\trefs/tags/v1", "sha2\trefs/tags/v1^\x7b\x7d"] =
        .ok "sha2" := by
  refine ⟨by decide, ?_⟩
  rw [resolve_ref_picks_peeled_then_first _ (by decide)]
  rfl

end Gitingest.GitUtils

namespace Gitingest.Entrypoint

/-- C1 counterexample: on a remote source whose clone step fails, the
exception from `await clone_repo(...)` propagates before the
`try`/`finally` block is entered, so the scratch directory is not removed —
refuting deletion on "every exit path ... including when the clone step
itself fails". -/
theorem clone_failure_skips_cleanup :
    (_clone_repo_if_remote String Unit true (.error "clone failed") (.ok ())).removedScratch
      = false := rfl

/-- C1 amended: on a remote source, once the clone step has succeeded the
scratch directory is removed on every exit path of the ingestion body —
success, error, and cancellation alike; when the clone step itself fails its
error propagates and the removal does not run; and the removal error handler
clears the read-only bit and retries once exactly on permission-denied
`OSError`s, re-raising everything else. -/
theorem scratch_cleanup_after_successful_clone (ε α : Type)
    (body : Except ε α) (e : ε) (exc excOther : PyException)
    (hexc : exc.isOSError = true ∧
      (exc.errnoCode = some errnoEACCES ∨ exc.errnoCode = some errnoEPERM))
    (hother : excOther.isOSError = false) :
    _clone_repo_if_remote ε α true (.ok ()) body = ⟨body, true⟩
    ∧ _clone_repo_if_remote ε α true (.error e) body = ⟨.error e, false⟩
    ∧ _handle_remove_readonly exc = .madeWritableAndRetried
    ∧ _handle_remove_readonly excOther = .reraised := by
  refine ⟨rfl, rfl, ?_, ?_⟩
  · obtain ⟨hos, herr⟩ := hexc
    unfold _handle_remove_readonly
    rw [if_neg]
    push_neg
    refine ⟨by simp [hos], ?_⟩
    intro hne
    rcases herr with h | h
    · exact absurd h hne
    · exact h
  · unfold _handle_remove_readonly
    rw [if_pos]
    left
    simp [hother]

/-- Witness for C1 amended at concrete inputs: a successful clone with a
failing body still removes the scratch directory, and a permission-denied
`OSError` is handled by making the target writable and retrying. -/
theorem scratch_cleanup_after_successful_clone_witness :
    _clone_repo_if_remote String Nat true (.ok ()) (.error "boom") =
      ⟨.error "boom", true⟩
    ∧ _handle_remove_readonly ⟨true, some 13⟩ = .madeWritableAndRetried := by
  have h := scratch_cleanup_after_successful_clone String Nat (.error "boom")
    "unused" ⟨true, some 13⟩ ⟨false, none⟩ (by constructor <;> simp [errnoEACCES])
    (by rfl)
  exact ⟨h.1, h.2.2.1⟩

end Gitingest.Entrypoint

namespace Gitingest.QueryParser

/-- C3 counterexample: with remote branches `a` and `a/b` and segments
`a/b` after `tree/`, the parser binds the branch `a` (the first — shortest —
matching prefix) and subpath `/b`, even though the longest matching prefix is
`a/b`; the claim's "longest prefix" reading predicts branch `a/b` with
subpath `/`. -/
theorem branch_prefix_not_longest :
    resolveRefAndSubpath ["a", "b"] [] ["a", "a/b"] = (.branch "a", "/b")
    ∧ longestMatchingPrefix ["a", "a/b"] ["a", "b"] = some ["a", "b"]
    ∧ joinSlash ["a", "b"] = "a/b"
    ∧ RefSelector.branch "a" ≠ RefSelector.branch "a/b" := by decide

lemma findRefPrefix_spec (refs : List String) :
    ∀ rest acc : List String,
      findRefPrefix refs acc rest =
        ((nonEmptyPrefixes rest).find?
            (fun pre => decide (joinSlash (acc ++ pre) ∈ refs))).map
          (fun pre => acc ++ pre) := by
  intro rest
  induction rest with
  | nil => intro acc; rfl
  | cons p rest ih =>
    intro acc
    by_cases hc : joinSlash (acc ++ [p]) ∈ refs
    · have h1 : findRefPrefix refs acc (p :: rest) = some (acc ++ [p]) := by
        simp only [findRefPrefix]
        rw [if_pos hc]
      have h2 : (nonEmptyPrefixes (p :: rest)).find?
          (fun pre => decide (joinSlash (acc ++ pre) ∈ refs)) = some [p] := by
        show ([p] :: (nonEmptyPrefixes rest).map (fun pre => p :: pre)).find? _ = _
        rw [List.find?_cons_of_pos]
        simpa using hc
      rw [h1, h2]
      rfl
    · have h1 : findRefPrefix refs acc (p :: rest) =
          findRefPrefix refs (acc ++ [p]) rest := by
        simp only [findRefPrefix]
        rw [if_neg hc]
      have h2 : (nonEmptyPrefixes (p :: rest)).find?
          (fun pre => decide (joinSlash (acc ++ pre) ∈ refs)) =
          ((nonEmptyPrefixes rest).find?
            (fun pre => decide (joinSlash ((acc ++ [p]) ++ pre) ∈ refs))).map
            (fun pre => p :: pre) := by
        show ([p] :: (nonEmptyPrefixes rest).map (fun pre => p :: pre)).find? _ = _
        rw [List.find?_cons_of_neg _ (by simpa using hc), List.find?_map]
        have hpred : ((fun pre => decide (joinSlash (acc ++ pre) ∈ refs)) ∘
              (fun pre => p :: pre)) =
            fun pre => decide (joinSlash ((acc ++ [p]) ++ pre) ∈ refs) := by
          funext pre
          simp only [Function.comp_apply]
          rw [List.append_cons]
        rw [hpred]
      rw [h1, ih (acc ++ [p]), h2, Option.map_map]
      congr 1
      funext pre
      simp

/-- C3 amended: when the path segments after `tree`/`blob` do not begin with
a valid 40-hex commit, the parser sets the ref to the **shortest** (first in
increasing length), not longest, non-empty prefix of the segments whose
`/`-joined form is a member of the remote ref list — consulting tags first,
then branches — consumes exactly those segments, and joins the rest as the
subpath (prefixing `/`); a 40-hex first segment is consumed as the commit
instead. -/
theorem resolve_ref_shortest_prefix (parts tags branches refs : List String) :
    _configure_branch_or_tag parts refs =
      (match (nonEmptyPrefixes parts).find?
          (fun pre => decide (joinSlash pre ∈ refs)) with
       | some pre => (some (joinSlash pre), parts.drop pre.length)
       | none => (none, parts))
    ∧ resolveRefAndSubpath parts tags branches = claimResolveRef tags branches parts := by
  have hconf : ∀ refs2 : List String,
      _configure_branch_or_tag parts refs2 =
        (match (nonEmptyPrefixes parts).find?
            (fun pre => decide (joinSlash pre ∈ refs2)) with
         | some pre => (some (joinSlash pre), parts.drop pre.length)
         | none => (none, parts)) := by
    intro refs2
    unfold _configure_branch_or_tag
    rw [findRefPrefix_spec refs2 parts []]
    simp only [List.nil_append]
    cases hf : (nonEmptyPrefixes parts).find?
        (fun pre => decide (joinSlash pre ∈ refs2)) with
    | none => rfl
    | some pre => rfl
  refine ⟨hconf refs, ?_⟩
  cases parts with
  | nil => rfl
  | cons p rest =>
    simp only [resolveRefAndSubpath, claimResolveRef]
    by_cases hhex : _is_valid_git_commit_hash p
    · rw [if_pos hhex, if_pos hhex]
    · rw [if_neg hhex, if_neg hhex]
      rw [hconf tags, hconf branches]
      cases hft : (nonEmptyPrefixes (p :: rest)).find?
          (fun pre => decide (joinSlash pre ∈ tags)) with
      | some pre => rfl
      | none =>
        cases hfb : (nonEmptyPrefixes (p :: rest)).find?
            (fun pre => decide (joinSlash pre ∈ branches)) with
        | some pre => rfl
        | none => rfl

/-- The spec's concrete branch-with-slashes example holds on the shortest
prefix rule as well: with branches `feature/fix1` and `main`, the segments
`feature/fix1/src` bind branch `feature/fix1` and subpath `/src`. -/
theorem feature_branch_slash_example :
    resolveRefAndSubpath ["feature", "fix1", "src"] [] ["feature/fix1", "main"] =
      (.branch "feature/fix1", "/src") := by decide

end Gitingest.QueryParser

namespace Gitingest.FilesystemSchema

open Gitingest.Ingestion

/-- C7: every per-file record has the exact shape `SEP\n<KIND>: <path>\nSEP\n<body>\n\n`
with `SEP` a run of exactly 48 `=` characters and ` -> <target>` appended to
the head line for symlinks; the body is the decoded text for text files,
`[Binary file]` when the chunk fails UTF-8 decoding, `[Empty file]` for
empty files, the converted script for notebooks, the empty string for
symlinks, and `Error reading file` when the file cannot be read. -/
theorem content_record_shape (n : RenderNode)
    (hnd : n.ntype ≠ FileSystemNodeType.DIRECTORY) :
    SEPARATOR.length = 48
    ∧ SEPARATOR.data.all (fun c => c = '=') = true
    ∧ (∀ body, content n = .ok body →
        content_string n = .ok (SEPARATOR ++ "\n" ++ kindName n.ntype ++ ": " ++
          n.pathStr ++
          (if n.ntype = FileSystemNodeType.SYMLINK then
            " -> " ++ n.linkTargetName else "") ++
          "\n" ++ SEPARATOR ++ "\n" ++ body ++ "\n\n"))
    ∧ (n.ntype = FileSystemNodeType.SYMLINK → content n = .ok "")
    ∧ (n.ntype = FileSystemNodeType.FILE → n.data.isIpynb = false →
        n.data.chunk = none → content n = .ok "Error reading file")
    ∧ (n.ntype = FileSystemNodeType.FILE → n.data.isIpynb = false →
        n.data.chunk = some [] → content n = .ok "[Empty file]")
    ∧ (∀ c, n.ntype = FileSystemNodeType.FILE → n.data.isIpynb = false →
        n.data.chunk = some c → c ≠ [] → n.data.decodes c "utf-8" = false →
        content n = .ok "[Binary file]")
    ∧ (∀ s, n.ntype = FileSystemNodeType.FILE → n.data.isIpynb = true →
        n.data.notebook = .ok s → content n = .ok s)
    ∧ (∀ c enc s, n.ntype = FileSystemNodeType.FILE → n.data.isIpynb = false →
        n.data.chunk = some c → c ≠ [] → n.data.decodes c "utf-8" = true →
        n.data.preferredEncodings.find? (fun e => n.data.decodes c e) = some enc →
        n.data.readFull enc = .ok s → content n = .ok s) := by
  refine ⟨by decide, by decide, ?_, ?_, ?_, ?_, ?_, ?_, ?_⟩
  · intro body hbody
    unfold content_string
    rw [hbody]
    simp only [Except.map, joinNewline]
    congr 1
    simp [String.append_assoc]
  · intro hs
    simp [content, hs]
  · intro hf hip hc
    simp [content, hf, hip, hc]
  · intro hf hip hc
    simp [content, hf, hip, hc]
  · intro c hf hip hc hne hdec
    simp [content, hf, hip, hc, hne, hdec]
  · intro s hf hip hnb
    simp [content, hf, hip, hnb]
  · intro c enc s hf hip hc hne hdec hfind hread
    simp [content, hf, hip, hc, hne, hdec, hfind, hread]

/-- Witness for C7 at concrete nodes: a binary file, an empty file, an
unreadable file, a symlink (with its record), a notebook, and a text file. -/
theorem content_record_shape_witness :
    content ⟨.FILE, "a.bin", "",
        ⟨false, .ok "", some [255], fun _ _ => false, ["utf-8"], fun _ => .error ""⟩⟩ =
      .ok "[Binary file]"
    ∧ content ⟨.FILE, "e.txt", "",
        ⟨false, .ok "", some [], fun _ _ => true, ["utf-8"], fun _ => .ok ""⟩⟩ =
      .ok "[Empty file]"
    ∧ content ⟨.FILE, "u.txt", "",
        ⟨false, .ok "", none, fun _ _ => true, ["utf-8"], fun _ => .ok ""⟩⟩ =
      .ok "Error reading file"
    ∧ content ⟨.SYMLINK, "src/link", "target.txt",
        ⟨false, .ok "", none, fun _ _ => false, [], fun _ => .error ""⟩⟩ =
      .ok ""
    ∧ content ⟨.FILE, "n.ipynb", "",
        ⟨true, .ok "# script", none, fun _ _ => false, [], fun _ => .error ""⟩⟩ =
      .ok "# script"
    ∧ content ⟨.FILE, "t.txt", "",
        ⟨false, .ok "", some [104], fun _ _ => true, ["utf-8"], fun _ => .ok "hi"⟩⟩ =
      .ok "hi"
    ∧ content_string ⟨.SYMLINK, "src/link", "target.txt",
        ⟨false, .ok "", none, fun _ _ => false, [], fun _ => .error ""⟩⟩ =
      .ok (SEPARATOR ++ "\n" ++ "SYMLINK" ++ ": " ++ "src/link" ++ " -> " ++
        "target.txt" ++ "\n" ++ SEPARATOR ++ "\n" ++ "" ++ "\n\n") := by
  have hbin := content_record_shape
    ⟨.FILE, "a.bin", "",
      ⟨false, .ok "", some [255], fun _ _ => false, ["utf-8"], fun _ => .error ""⟩⟩
    (by decide)
  have hsym := content_record_shape
    ⟨.SYMLINK, "src/link", "target.txt",
      ⟨false, .ok "", none, fun _ _ => false, [], fun _ => .error ""⟩⟩
    (by decide)
  have h1 := hbin.2.2.2.2.2.2.1 [255] rfl rfl rfl (by decide) rfl
  have h4 := hsym.2.2.2.1 rfl
  have hemp := content_record_shape
    ⟨.FILE, "e.txt", "",
      ⟨false, .ok "", some [], fun _ _ => true, ["utf-8"], fun _ => .ok ""⟩⟩
    (by decide)
  have hunr := content_record_shape
    ⟨.FILE, "u.txt", "",
      ⟨false, .ok "", none, fun _ _ => true, ["utf-8"], fun _ => .ok ""⟩⟩
    (by decide)
  have hnb := content_record_shape
    ⟨.FILE, "n.ipynb", "",
      ⟨true, .ok "# script", none, fun _ _ => false, [], fun _ => .error ""⟩⟩
    (by decide)
  have htxt := content_record_shape
    ⟨.FILE, "t.txt", "",
      ⟨false, .ok "", some [104], fun _ _ => true, ["utf-8"], fun _ => .ok "hi"⟩⟩
    (by decide)
  refine ⟨h1, hemp.2.2.2.2.2.1 rfl rfl rfl, hunr.2.2.2.2.1 rfl rfl rfl, h4,
    hnb.2.2.2.2.2.2.2.1 "# script" rfl rfl rfl, ?_, ?_⟩
  · exact htxt.2.2.2.2.2.2.2.2 [104] "utf-8" "hi" rfl rfl rfl (by decide) rfl rfl rfl
  · have := hsym.2.2.1 "" h4
    simpa using this

end Gitingest.FilesystemSchema

namespace Gitingest.Ingestion

/-- C9: a symlink entry that passes the exclude and include filters is
always recorded — the walker appends the Symlink node to the parent and
increments the total-files counter without consulting `MAX_FILES` or
`MAX_TOTAL_SIZE_BYTES` — for every value of the statistics counters,
including counters already at or beyond the caps. -/
theorem symlink_bypasses_caps (q : WalkQuery) (dirPath : List String)
    (depth : Nat) (stats : FileSystemStats) (name : String) (rest : List FSEntry)
    (hpass : filteredOut q (dirPath ++ [name]) = false) :
    (_process_entries q dirPath depth stats (.symlink name :: rest)).children =
      FileSystemNode.mk name .SYMLINK (dirPath ++ [name]) 0 0 0 (depth + 1) [] ::
        (_process_entries q dirPath depth
          ⟨stats.totalFiles + 1, stats.totalSize⟩ rest).children
    ∧ (_process_entries q dirPath depth stats (.symlink name :: rest)).fileCount =
      1 + (_process_entries q dirPath depth
          ⟨stats.totalFiles + 1, stats.totalSize⟩ rest).fileCount
    ∧ (_process_entries q dirPath depth stats (.symlink name :: rest)).stats =
      (_process_entries q dirPath depth
        ⟨stats.totalFiles + 1, stats.totalSize⟩ rest).stats := by
  simp only [_process_entries, _process_entry, hpass, Bool.false_eq_true,
    if_false]
  exact ⟨trivial, trivial, trivial⟩

/-- Witness for C9 at a concrete input: with the counters already past the
default caps (10 000 files, 500 MiB), a symlink is still appended and the
counter still advances. -/
theorem symlink_bypasses_caps_witness :
    (_process_entries
        ⟨["repo"], 10485760, false, false, fun _ => false, fun _ => true,
          defaultLimits⟩
        ["repo"] 0 ⟨999999, 999999999999⟩ [.symlink "s"]).children =
      [FileSystemNode.mk "s" .SYMLINK ["repo", "s"] 0 0 0 1 []]
    ∧ (_process_entries
        ⟨["repo"], 10485760, false, false, fun _ => false, fun _ => true,
          defaultLimits⟩
        ["repo"] 0 ⟨999999, 999999999999⟩ [.symlink "s"]).stats.totalFiles =
      1000000 := by
  have h := symlink_bypasses_caps
    ⟨["repo"], 10485760, false, false, fun _ => false, fun _ => true,
      defaultLimits⟩
    ["repo"] 0 ⟨999999, 999999999999⟩ "s" [] rfl
  refine ⟨h.1, ?_⟩
  rw [h.2.2]
  rfl

end Gitingest.Ingestion

namespace Gitingest.Ingestion

lemma insertByKey_perm (a : FileSystemNode) :
    ∀ l : List FileSystemNode, (insertByKey a l).Perm (a :: l) := by
  intro l
  induction l with
  | nil => simp [insertByKey]
  | cons b bs ih =>
    simp only [insertByKey]
    by_cases h : keyLe b a = true
    · rw [if_pos h]
      exact (ih.cons b).trans (List.Perm.swap a b bs)
    · rw [if_neg h]

lemma foldl_insertByKey_perm :
    ∀ (l acc : List FileSystemNode),
      (l.foldl (fun acc a => insertByKey a acc) acc).Perm (acc ++ l) := by
  intro l
  induction l with
  | nil => intro acc; simp
  | cons a l ih =>
    intro acc
    have h1 := ih (insertByKey a acc)
    have h2 : (insertByKey a acc ++ l).Perm (acc ++ a :: l) := by
      have := (insertByKey_perm a acc).append_right l
      exact this.trans (List.perm_middle.symm)
    simpa using h1.trans h2

lemma sort_children_perm (l : List FileSystemNode) :
    (sort_children l).Perm l := by
  simpa using foldl_insertByKey_perm l []

lemma subtreeSizeList_eq_sum :
    ∀ l : List FileSystemNode, subtreeSizeList l = (l.map subtreeSize).sum := by
  intro l
  induction l with
  | nil => rfl
  | cons n rest ih => simp [subtreeSizeList, ih]

lemma subtreeFilesList_eq_sum :
    ∀ l : List FileSystemNode, subtreeFilesList l = (l.map subtreeFiles).sum := by
  intro l
  induction l with
  | nil => rfl
  | cons n rest ih => simp [subtreeFilesList, ih]

lemma subtreeDirsList_eq_sum :
    ∀ l : List FileSystemNode, subtreeDirsList l = (l.map subtreeDirs).sum := by
  intro l
  induction l with
  | nil => rfl
  | cons n rest ih => simp [subtreeDirsList, ih]

lemma fileNodesList_eq_sum :
    ∀ l : List FileSystemNode, fileNodesList l = (l.map fileNodes).sum := by
  intro l
  induction l with
  | nil => rfl
  | cons n rest ih => simp [fileNodesList, ih]

lemma subtreeSizeList_perm {l l' : List FileSystemNode} (h : l.Perm l') :
    subtreeSizeList l = subtreeSizeList l' := by
  rw [subtreeSizeList_eq_sum, subtreeSizeList_eq_sum]
  exact (h.map subtreeSize).sum_eq

lemma subtreeFilesList_perm {l l' : List FileSystemNode} (h : l.Perm l') :
    subtreeFilesList l = subtreeFilesList l' := by
  rw [subtreeFilesList_eq_sum, subtreeFilesList_eq_sum]
  exact (h.map subtreeFiles).sum_eq

lemma subtreeDirsList_perm {l l' : List FileSystemNode} (h : l.Perm l') :
    subtreeDirsList l = subtreeDirsList l' := by
  rw [subtreeDirsList_eq_sum, subtreeDirsList_eq_sum]
  exact (h.map subtreeDirs).sum_eq

lemma fileNodesList_perm {l l' : List FileSystemNode} (h : l.Perm l') :
    fileNodesList l = fileNodesList l' := by
  rw [fileNodesList_eq_sum, fileNodesList_eq_sum]
  exact (h.map fileNodes).sum_eq

lemma GoodList_iff_forall :
    ∀ l : List FileSystemNode, GoodList l ↔ ∀ n ∈ l, GoodNode n := by
  intro l
  induction l with
  | nil => simp [GoodList]
  | cons n rest ih =>
    simp [GoodList, ih]

lemma GoodList_perm {l l' : List FileSystemNode} (h : l.Perm l')
    (hg : GoodList l) : GoodList l' := by
  rw [GoodList_iff_forall] at hg ⊢
  intro n hn
  exact hg n (h.symm.subset hn)

lemma NodesUnder_iff_forall (base : List String) :
    ∀ l : List FileSystemNode, NodesUnder base l ↔ ∀ n ∈ l, NodeUnder base n := by
  intro l
  induction l with
  | nil => simp [NodesUnder]
  | cons n rest ih => simp [NodesUnder, ih]

lemma NodesUnder_perm {base : List String} {l l' : List FileSystemNode}
    (h : l.Perm l') (hu : NodesUnder base l) : NodesUnder base l' := by
  rw [NodesUnder_iff_forall] at hu ⊢
  intro n hn
  exact hu n (h.symm.subset hn)

lemma noSymlinkNodes_iff_forall :
    ∀ l : List FileSystemNode,
      noSymlinkNodes l = true ↔ ∀ n ∈ l, noSymlinkNode n = true := by
  intro l
  induction l with
  | nil => simp [noSymlinkNodes]
  | cons n rest ih => simp [noSymlinkNodes, ih]

lemma noSymlinkNodes_perm {l l' : List FileSystemNode} (h : l.Perm l')
    (hs : noSymlinkNodes l = true) : noSymlinkNodes l' = true := by
  rw [noSymlinkNodes_iff_forall] at hs ⊢
  intro n hn
  exact hs n (h.symm.subset hn)

end Gitingest.Ingestion

namespace Gitingest.Ingestion

lemma entry_skip_inv {q : WalkQuery} {dirPath : List String} {depth : Nat}
    {stats : FileSystemStats} {e : FSEntry}
    (hval : _process_entry q dirPath depth stats e = ⟨none, 0, 0, 0, stats⟩) :
    EntryInv q dirPath depth stats e := by
  constructor
  · intro _
    exact hval
  · intro c hc
    rw [hval] at hc
    simp at hc

lemma entry_some_inv {q : WalkQuery} {dirPath : List String} {depth : Nat}
    {stats : FileSystemStats} {e : FSEntry} {c : FileSystemNode}
    (hval : _process_entry q dirPath depth stats e =
      ⟨some c, subtreeSize c, subtreeFiles c, subtreeDirs c,
        ⟨stats.totalFiles + subtreeFiles c, stats.totalSize + subtreeSize c⟩⟩)
    (hg : GoodNode c) : EntryInv q dirPath depth stats e := by
  constructor
  · intro hnone
    rw [hval] at hnone
    simp at hnone
  · intro c' hc'
    rw [hval] at hc'
    simp only [Option.some.injEq] at hc'
    subst hc'
    exact ⟨hg, hval⟩

mutual

theorem process_entry_inv (q : WalkQuery) (dirPath : List String) (depth : Nat)
    (stats : FileSystemStats) : (e : FSEntry) → EntryInv q dirPath depth stats e
  | .symlink name => by
    by_cases hfo : filteredOut q (dirPath ++ [name]) = true
    · exact entry_skip_inv (by simp [_process_entry, hfo])
    · apply entry_some_inv
        (c := FileSystemNode.mk name .SYMLINK (dirPath ++ [name]) 0 0 0 (depth + 1) [])
      · simp [_process_entry, hfo, subtreeSize, subtreeFiles, subtreeDirs]
      · simp [GoodNode, GoodList]
  | .file name fsize => by
    by_cases hfo : filteredOut q (dirPath ++ [name]) = true
    · exact entry_skip_inv (by simp [_process_entry, hfo])
    · by_cases hsz : q.maxFileSize < fsize
      · exact entry_skip_inv (by simp [_process_entry, hfo, hsz])
      · by_cases hmf : q.limits.maxFiles < stats.totalFiles + 1
        · exact entry_skip_inv (by simp [_process_entry, hfo, hsz, hmf])
        · by_cases hts : q.limits.maxTotalSizeBytes < stats.totalSize + fsize
          · exact entry_skip_inv (by simp [_process_entry, hfo, hsz, hmf, hts])
          · apply entry_some_inv
              (c := FileSystemNode.mk name .FILE (dirPath ++ [name]) fsize 1 0 (depth + 1) [])
            · simp [_process_entry, hfo, hsz, hmf, hts, subtreeSize,
                subtreeFiles, subtreeDirs]
            · simp [GoodNode, GoodList]
  | .dir name entries => by
    by_cases hfo : filteredOut q (dirPath ++ [name]) = true
    · exact entry_skip_inv (by simp [_process_entry, hfo])
    · by_cases hlim : limit_exceeded q.limits stats (depth + 1) = true
      · exact entry_skip_inv (by simp [_process_entry, hfo, hlim])
      · obtain ⟨hLg, hLsz, hLfc, hLdc, hLtf, hLts⟩ :=
          process_entries_inv q (dirPath ++ [name]) (depth + 1) stats entries
        have hperm := sort_children_perm
          (_process_entries q (dirPath ++ [name]) (depth + 1) stats entries).children
        cases hsc : sort_children
            (_process_entries q (dirPath ++ [name]) (depth + 1) stats entries).children with
        | nil =>
          have hce :
              (_process_entries q (dirPath ++ [name]) (depth + 1) stats entries).children
                = [] :=
            (hsc ▸ hperm).symm.eq_nil
          have hstats :
              (_process_entries q (dirPath ++ [name]) (depth + 1) stats entries).stats
                = stats := by
            ext
            · rw [hLtf, hce]
              simp [subtreeFilesList]
            · rw [hLts, hce]
              simp [subtreeSizeList]
          apply entry_skip_inv
          simp [_process_entry, hfo, hlim, hsc, hstats]
        | cons c cs =>
          have hperm' : (c :: cs).Perm
              (_process_entries q (dirPath ++ [name]) (depth + 1) stats entries).children :=
            hsc ▸ hperm
          have hszl : subtreeSizeList (c :: cs) =
              (_process_entries q (dirPath ++ [name]) (depth + 1) stats entries).size :=
            (subtreeSizeList_perm hperm').trans hLsz.symm
          have hfcl : subtreeFilesList (c :: cs) =
              (_process_entries q (dirPath ++ [name]) (depth + 1) stats entries).fileCount :=
            (subtreeFilesList_perm hperm').trans hLfc.symm
          have hdcl : subtreeDirsList (c :: cs) =
              (_process_entries q (dirPath ++ [name]) (depth + 1) stats entries).dirCount :=
            (subtreeDirsList_perm hperm').trans hLdc.symm
          have hgl : GoodList (c :: cs) := GoodList_perm hperm'.symm hLg
          apply entry_some_inv
            (c := FileSystemNode.mk name .DIRECTORY (dirPath ++ [name])
              (_process_entries q (dirPath ++ [name]) (depth + 1) stats entries).size
              (_process_entries q (dirPath ++ [name]) (depth + 1) stats entries).fileCount
              (_process_entries q (dirPath ++ [name]) (depth + 1) stats entries).dirCount
              (depth + 1) (c :: cs))
          · have hsub1 : subtreeSize
                (FileSystemNode.mk name .DIRECTORY (dirPath ++ [name])
                  (_process_entries q (dirPath ++ [name]) (depth + 1) stats entries).size
                  (_process_entries q (dirPath ++ [name]) (depth + 1) stats entries).fileCount
                  (_process_entries q (dirPath ++ [name]) (depth + 1) stats entries).dirCount
                  (depth + 1) (c :: cs)) =
                (_process_entries q (dirPath ++ [name]) (depth + 1) stats entries).size := by
              simp [subtreeSize, hszl]
            have hsub2 : subtreeFiles
                (FileSystemNode.mk name .DIRECTORY (dirPath ++ [name])
                  (_process_entries q (dirPath ++ [name]) (depth + 1) stats entries).size
                  (_process_entries q (dirPath ++ [name]) (depth + 1) stats entries).fileCount
                  (_process_entries q (dirPath ++ [name]) (depth + 1) stats entries).dirCount
                  (depth + 1) (c :: cs)) =
                (_process_entries q (dirPath ++ [name]) (depth + 1) stats entries).fileCount := by
              simp [subtreeFiles, hfcl]
            have hsub3 : subtreeDirs
                (FileSystemNode.mk name .DIRECTORY (dirPath ++ [name])
                  (_process_entries q (dirPath ++ [name]) (depth + 1) stats entries).size
                  (_process_entries q (dirPath ++ [name]) (depth + 1) stats entries).fileCount
                  (_process_entries q (dirPath ++ [name]) (depth + 1) stats entries).dirCount
                  (depth + 1) (c :: cs)) =
                1 + (_process_entries q (dirPath ++ [name]) (depth + 1) stats entries).dirCount := by
              simp [subtreeDirs, hdcl]
            simp only [_process_entry, hfo, Bool.false_eq_true, if_false,
              hlim, hsc, hsub1, hsub2, hsub3]
            refine congrArg (fun st => EntryOut.mk _ _ _ _ st) ?_
            ext
            · simp [hLfc]
              exact hLtf
            · simp [hLsz]
              exact hLts
          · refine ⟨hgl, fun _ => ⟨?_, ?_, ?_⟩⟩
            · exact hszl.symm
            · exact hfcl.symm
            · exact hdcl.symm

theorem process_entries_inv (q : WalkQuery) (dirPath : List String)
    (depth : Nat) (stats : FileSystemStats) :
    (es : List FSEntry) → EntriesInv q dirPath depth stats es
  | [] => by
    refine ⟨trivial, rfl, rfl, rfl, ?_, ?_⟩ <;>
      simp [_process_entries, subtreeFilesList, subtreeSizeList]
  | e :: rest => by
    obtain ⟨hskip, hsome⟩ := process_entry_inv q dirPath depth stats e
    cases hch : (_process_entry q dirPath depth stats e).child with
    | none =>
      have heq := hskip hch
      obtain ⟨hg, hsz, hfc, hdc, htf, hts⟩ :=
        process_entries_inv q dirPath depth stats rest
      refine ⟨?_, ?_, ?_, ?_, ?_, ?_⟩ <;>
        simp only [_process_entries, heq] <;>
        simp [hg, hsz, hfc, hdc, htf, hts]
    | some c =>
      obtain ⟨hgood, heq⟩ := hsome c hch
      obtain ⟨hg, hsz, hfc, hdc, htf, hts⟩ :=
        process_entries_inv q dirPath depth
          ⟨stats.totalFiles + subtreeFiles c, stats.totalSize + subtreeSize c⟩ rest
      refine ⟨?_, ?_, ?_, ?_, ?_, ?_⟩ <;>
        simp only [_process_entries, heq] <;>
        simp [GoodList, subtreeSizeList, subtreeFilesList, subtreeDirsList,
          hgood, hg, hsz, hfc, hdc, htf, hts] <;>
        omega

end

end Gitingest.Ingestion

namespace Gitingest.Ingestion

/-- C8: for every Directory node in the tree returned by the walker — the
root included — `size` equals the sum of the sizes of its descendant File
nodes (Symlink nodes contributing zero), `file_count` equals the number of
File-plus-Symlink descendants, and `dir_count` equals the number of
Directory descendants. -/
theorem walk_directory_invariants (q : WalkQuery) (rootPath : List String)
    (entries : List FSEntry) :
    GoodNode (walkDirectory q rootPath entries).1 := by
  unfold walkDirectory
  by_cases hlim : limit_exceeded q.limits ⟨0, 0⟩ 0 = true
  · rw [if_pos hlim]
    simp [GoodNode, GoodList, subtreeSizeList, subtreeFilesList,
      subtreeDirsList]
  · rw [if_neg hlim]
    obtain ⟨hLg, hLsz, hLfc, hLdc, -, -⟩ :=
      process_entries_inv q rootPath 0 ⟨0, 0⟩ entries
    have hperm := sort_children_perm
      (_process_entries q rootPath 0 ⟨0, 0⟩ entries).children
    simp only [GoodNode]
    refine ⟨GoodList_perm hperm.symm hLg, fun _ => ⟨?_, ?_, ?_⟩⟩
    · rw [hLsz]
      exact (subtreeSizeList_perm hperm).symm
    · rw [hLfc]
      exact (subtreeFilesList_perm hperm).symm
    · rw [hLdc]
      exact (subtreeDirsList_perm hperm).symm

end Gitingest.Ingestion

namespace Gitingest.Ingestion

mutual

theorem NodeUnder_mono {base base2 : List String} (h : base <+: base2) :
    (n : FileSystemNode) → NodeUnder base2 n → NodeUnder base n
  | .mk _ _ _ _ _ _ _ children => fun hn =>
    ⟨h.trans hn.1, NodesUnder_mono h children hn.2⟩

theorem NodesUnder_mono {base base2 : List String} (h : base <+: base2) :
    (l : List FileSystemNode) → NodesUnder base2 l → NodesUnder base l
  | [] => fun _ => trivial
  | n :: rest => fun hn =>
    ⟨NodeUnder_mono h n hn.1, NodesUnder_mono h rest hn.2⟩

end

mutual

theorem entry_under (q : WalkQuery) (dirPath : List String) (depth : Nat)
    (stats : FileSystemStats) :
    (e : FSEntry) → ∀ c,
      (_process_entry q dirPath depth stats e).child = some c →
      NodeUnder dirPath c
  | .symlink name => by
    intro c hc
    by_cases hfo : filteredOut q (dirPath ++ [name]) = true
    · simp [_process_entry, hfo] at hc
    · simp only [_process_entry, hfo, Bool.false_eq_true, if_false,
        Option.some.injEq] at hc
      subst hc
      exact ⟨List.prefix_append _ _, trivial⟩
  | .file name fsize => by
    intro c hc
    by_cases hfo : filteredOut q (dirPath ++ [name]) = true
    · simp [_process_entry, hfo] at hc
    · by_cases hsz : q.maxFileSize < fsize
      · simp [_process_entry, hfo, hsz] at hc
      · by_cases hmf : q.limits.maxFiles < stats.totalFiles + 1
        · simp [_process_entry, hfo, hsz, hmf] at hc
        · by_cases hts : q.limits.maxTotalSizeBytes < stats.totalSize + fsize
          · simp [_process_entry, hfo, hsz, hmf, hts] at hc
          · simp only [_process_entry, hfo, hsz, hmf, hts,
              Bool.false_eq_true, if_false, Option.some.injEq] at hc
            subst hc
            exact ⟨List.prefix_append _ _, trivial⟩
  | .dir name entries => by
    intro c hc
    by_cases hfo : filteredOut q (dirPath ++ [name]) = true
    · simp [_process_entry, hfo] at hc
    · by_cases hlim : limit_exceeded q.limits stats (depth + 1) = true
      · simp [_process_entry, hfo, hlim] at hc
      · have hu := entries_under q (dirPath ++ [name]) (depth + 1) stats entries
        have hperm := sort_children_perm
          (_process_entries q (dirPath ++ [name]) (depth + 1) stats entries).children
        cases hsc : sort_children
            (_process_entries q (dirPath ++ [name]) (depth + 1) stats entries).children with
        | nil => simp [_process_entry, hfo, hlim, hsc] at hc
        | cons c0 cs =>
          simp only [_process_entry, hfo, hlim, hsc, Bool.false_eq_true,
            if_false, Option.some.injEq] at hc
          subst hc
          refine ⟨List.prefix_append _ _, ?_⟩
          exact NodesUnder_mono (List.prefix_append _ _) _
            (NodesUnder_perm (hsc ▸ hperm).symm hu)

theorem entries_under (q : WalkQuery) (dirPath : List String) (depth : Nat)
    (stats : FileSystemStats) :
    (es : List FSEntry) →
      NodesUnder dirPath (_process_entries q dirPath depth stats es).children
  | [] => trivial
  | e :: rest => by
    have hr := entries_under q dirPath depth
      (_process_entry q dirPath depth stats e).stats rest
    cases hch : (_process_entry q dirPath depth stats e).child with
    | none =>
      simp only [_process_entries, hch]
      exact hr
    | some c =>
      simp only [_process_entries, hch]
      exact ⟨entry_under q dirPath depth stats e c hch, hr⟩

end

end Gitingest.Ingestion

namespace Gitingest.IngestionUtils

open Gitingest.Ingestion

/-- C10: a path that does not lie under the base directory (no relative path
can be computed) is answered "excluded" by `_should_exclude` and
"not included" by `_should_include`, for every pattern matcher; and every
node the walker adds has the walk root — hence the repository root — as a
prefix of its path. -/
theorem outside_base_never_included :
    (∀ (path base : List String) (m : List String → Bool),
      _relative_or_none path base = none → _should_exclude path base m = true)
    ∧ (∀ (path base : List String) (isDir : Bool) (fm dk : List String → Bool),
      _relative_or_none path base = none →
        _should_include path base isDir fm dk = false)
    ∧ (∀ (q : WalkQuery) (rootPath : List String) (entries : List FSEntry)
        (base : List String), base <+: rootPath →
        base <+: (walkDirectory q rootPath entries).1.path
        ∧ NodesUnder base (walkDirectory q rootPath entries).1.children) := by
  refine ⟨?_, ?_, ?_⟩
  · intro path base m h
    simp [_should_exclude, h]
  · intro path base isDir fm dk h
    simp [_should_include, h]
  · intro q rootPath entries base hpre
    constructor
    · have hpath : (walkDirectory q rootPath entries).1.path = rootPath := rfl
      rw [hpath]
      exact hpre
    · have hch : NodesUnder rootPath (walkDirectory q rootPath entries).1.children := by
        unfold walkDirectory
        by_cases hlim : limit_exceeded q.limits ⟨0, 0⟩ 0 = true
        · rw [if_pos hlim]
          exact trivial
        · rw [if_neg hlim]
          exact NodesUnder_perm
            (sort_children_perm
              (_process_entries q rootPath 0 ⟨0, 0⟩ entries).children).symm
            (entries_under q rootPath 0 ⟨0, 0⟩ entries)
      exact NodesUnder_mono hpre _ hch

/-- Witness for C10 at concrete inputs: `/etc/passwd` is outside the base
`/repo`, so it is excluded and not included whatever the matchers say; and a
concrete walk stays under the repository root. -/
theorem outside_base_never_included_witness :
    _should_exclude ["etc", "passwd"] ["repo"] (fun _ => false) = true
    ∧ _should_include ["etc", "passwd"] ["repo"] false (fun _ => true)
        (fun _ => true) = false
    ∧ ["repo"] <+:
        (walkDirectory
          ⟨["repo"], 10485760, false, false, fun _ => false, fun _ => true,
            defaultLimits⟩
          ["repo", "sub"] [.file "a" 1]).1.path := by
  have h := outside_base_never_included
  refine ⟨h.1 ["etc", "passwd"] ["repo"] (fun _ => false) (by decide),
    h.2.1 ["etc", "passwd"] ["repo"] false (fun _ => true) (fun _ => true)
      (by decide),
    ?_⟩
  exact (h.2.2
    ⟨["repo"], 10485760, false, false, fun _ => false, fun _ => true,
      defaultLimits⟩
    ["repo", "sub"] [.file "a" 1] ["repo"] (by decide)).1

end Gitingest.IngestionUtils

namespace Gitingest.Ingestion

mutual

theorem subtreeFiles_eq_fileNodes :
    (n : FileSystemNode) → noSymlinkNode n = true → subtreeFiles n = fileNodes n
  | .mk _ t _ _ _ _ _ children => by
    intro h
    cases t with
    | FILE => rfl
    | SYMLINK => simp [noSymlinkNode] at h
    | DIRECTORY =>
      simp only [subtreeFiles, fileNodes]
      exact subtreeFilesList_eq_fileNodesList children
        (by simpa [noSymlinkNode] using h)

theorem subtreeFilesList_eq_fileNodesList :
    (l : List FileSystemNode) → noSymlinkNodes l = true →
      subtreeFilesList l = fileNodesList l
  | [] => by intro _; rfl
  | n :: rest => by
    intro h
    simp only [noSymlinkNodes, Bool.and_eq_true] at h
    simp only [subtreeFilesList, fileNodesList]
    rw [subtreeFiles_eq_fileNodes n h.1,
      subtreeFilesList_eq_fileNodesList rest h.2]

end

mutual

theorem entry_symfree (q : WalkQuery) (dirPath : List String) (depth : Nat)
    (stats : FileSystemStats) :
    (e : FSEntry) → symlinkFreeEntry e = true →
      (∀ c, (_process_entry q dirPath depth stats e).child = some c →
        noSymlinkNode c = true)
      ∧ (stats.totalFiles ≤ q.limits.maxFiles →
          (_process_entry q dirPath depth stats e).stats.totalFiles ≤
            q.limits.maxFiles)
  | .symlink name => by
    intro h
    simp [symlinkFreeEntry] at h
  | .file name fsize => by
    intro _
    by_cases hfo : filteredOut q (dirPath ++ [name]) = true
    · refine ⟨?_, ?_⟩
      · intro c hc
        simp [_process_entry, hfo] at hc
      · intro hb
        simpa [_process_entry, hfo] using hb
    · by_cases hsz : q.maxFileSize < fsize
      · refine ⟨?_, ?_⟩
        · intro c hc
          simp [_process_entry, hfo, hsz] at hc
        · intro hb
          simpa [_process_entry, hfo, hsz] using hb
      · by_cases hmf : q.limits.maxFiles < stats.totalFiles + 1
        · refine ⟨?_, ?_⟩
          · intro c hc
            simp [_process_entry, hfo, hsz, hmf] at hc
          · intro hb
            simpa [_process_entry, hfo, hsz, hmf] using hb
        · by_cases hts : q.limits.maxTotalSizeBytes < stats.totalSize + fsize
          · refine ⟨?_, ?_⟩
            · intro c hc
              simp [_process_entry, hfo, hsz, hmf, hts] at hc
            · intro hb
              simpa [_process_entry, hfo, hsz, hmf, hts] using hb
          · refine ⟨?_, ?_⟩
            · intro c hc
              simp only [_process_entry, hfo, hsz, hmf, hts,
                Bool.false_eq_true, if_false, Option.some.injEq] at hc
              subst hc
              simp [noSymlinkNode, noSymlinkNodes]
            · intro _
              simp only [_process_entry, hfo, hsz, hmf, hts,
                Bool.false_eq_true, if_false]
              omega
  | .dir name entries => by
    intro hsf
    have hsfe : symlinkFreeEntries entries = true := by
      simpa [symlinkFreeEntry] using hsf
    by_cases hfo : filteredOut q (dirPath ++ [name]) = true
    · refine ⟨?_, ?_⟩
      · intro c hc
        simp [_process_entry, hfo] at hc
      · intro hb
        simpa [_process_entry, hfo] using hb
    · by_cases hlim : limit_exceeded q.limits stats (depth + 1) = true
      · refine ⟨?_, ?_⟩
        · intro c hc
          simp [_process_entry, hfo, hlim] at hc
        · intro hb
          simpa [_process_entry, hfo, hlim] using hb
      · obtain ⟨hns, hcap⟩ :=
          entries_symfree q (dirPath ++ [name]) (depth + 1) stats entries hsfe
        cases hsc : sort_children
            (_process_entries q (dirPath ++ [name]) (depth + 1) stats entries).children with
        | nil =>
          refine ⟨?_, ?_⟩
          · intro c hc
            simp [_process_entry, hfo, hlim, hsc] at hc
          · intro hb
            simp only [_process_entry, hfo, hlim, hsc, Bool.false_eq_true,
              if_false]
            exact hcap hb
        | cons c0 cs =>
          have hns' : noSymlinkNodes (c0 :: cs) = true :=
            noSymlinkNodes_perm (hsc ▸ sort_children_perm _).symm hns
          refine ⟨?_, ?_⟩
          · intro c hc
            simp only [_process_entry, hfo, hlim, hsc, Bool.false_eq_true,
              if_false, Option.some.injEq] at hc
            subst hc
            simpa [noSymlinkNode] using hns'
          · intro hb
            simp only [_process_entry, hfo, hlim, hsc, Bool.false_eq_true,
              if_false]
            exact hcap hb

theorem entries_symfree (q : WalkQuery) (dirPath : List String) (depth : Nat)
    (stats : FileSystemStats) :
    (es : List FSEntry) → symlinkFreeEntries es = true →
      noSymlinkNodes (_process_entries q dirPath depth stats es).children = true
      ∧ (stats.totalFiles ≤ q.limits.maxFiles →
          (_process_entries q dirPath depth stats es).stats.totalFiles ≤
            q.limits.maxFiles)
  | [] => by
    intro _
    refine ⟨rfl, fun hb => by simpa [_process_entries] using hb⟩
  | e :: rest => by
    intro hsf
    simp only [symlinkFreeEntries, Bool.and_eq_true] at hsf
    obtain ⟨hcn, hcap⟩ := entry_symfree q dirPath depth stats e hsf.1
    obtain ⟨hrn, hrcap⟩ := entries_symfree q dirPath depth
      (_process_entry q dirPath depth stats e).stats rest hsf.2
    cases hch : (_process_entry q dirPath depth stats e).child with
    | none =>
      refine ⟨?_, ?_⟩
      · simp only [_process_entries, hch]
        exact hrn
      · intro hb
        simp only [_process_entries, hch]
        exact hrcap (hcap hb)
    | some c =>
      refine ⟨?_, ?_⟩
      · simp only [_process_entries, hch, noSymlinkNodes]
        simp [hcn c hch, hrn]
      · intro hb
        simp only [_process_entries, hch]
        exact hrcap (hcap hb)

end

end Gitingest.Ingestion

namespace Gitingest.Ingestion

/-- C4 amended: in every traversal whose entries contain no symlinks, the
total-files counter never passes `MAX_FILES` (the walker stops adding files
without aborting — the walk is total and still returns a tree), and whenever
the counter reaches the cap exactly, the returned tree contains exactly
`MAX_FILES` File nodes and its root's `file_count` equals the cap. -/
theorem max_files_cap_exact (q : WalkQuery) (rootPath : List String)
    (entries : List FSEntry) (hsf : symlinkFreeEntries entries = true) :
    (walkDirectory q rootPath entries).2.totalFiles ≤ q.limits.maxFiles
    ∧ ((walkDirectory q rootPath entries).2.totalFiles = q.limits.maxFiles →
        fileNodesList (walkDirectory q rootPath entries).1.children =
          q.limits.maxFiles
        ∧ (walkDirectory q rootPath entries).1.fileCount = q.limits.maxFiles) := by
  obtain ⟨-, -, hLfc, -, hLtf, -⟩ := process_entries_inv q rootPath 0 ⟨0, 0⟩ entries
  obtain ⟨hns, hcap⟩ := entries_symfree q rootPath 0 ⟨0, 0⟩ entries hsf
  have hperm := sort_children_perm
    (_process_entries q rootPath 0 ⟨0, 0⟩ entries).children
  unfold walkDirectory
  by_cases hlim : limit_exceeded q.limits ⟨0, 0⟩ 0 = true
  · rw [if_pos hlim]
    refine ⟨Nat.zero_le _, fun hreach => ⟨?_, ?_⟩⟩
    · simpa [fileNodesList] using hreach
    · simpa using hreach
  · rw [if_neg hlim]
    constructor
    · show (_process_entries q rootPath 0 ⟨0, 0⟩ entries).stats.totalFiles ≤
        q.limits.maxFiles
      exact hcap (Nat.zero_le _)
    · intro hreach
      have hreach' : (_process_entries q rootPath 0 ⟨0, 0⟩ entries).stats.totalFiles =
          q.limits.maxFiles := hreach
      rw [hLtf] at hreach'
      simp only [show (⟨0, 0⟩ : FileSystemStats).totalFiles = 0 from rfl,
        Nat.zero_add] at hreach'
      constructor
      · show fileNodesList
          (sort_children (_process_entries q rootPath 0 ⟨0, 0⟩ entries).children) =
          q.limits.maxFiles
        rw [← subtreeFilesList_eq_fileNodesList _
          (noSymlinkNodes_perm hperm.symm hns)]
        rw [subtreeFilesList_perm hperm]
        omega
      · show (_process_entries q rootPath 0 ⟨0, 0⟩ entries).fileCount =
          q.limits.maxFiles
        rw [hLfc]
        omega

/-- Witness for C4 amended at a concrete input: with the file cap set to 2
and three regular files on disk, the walk completes, the counter stops at
the cap, and the returned tree holds exactly 2 File nodes. -/
theorem max_files_cap_exact_witness :
    symlinkFreeEntries [FSEntry.file "a" 1, FSEntry.file "b" 1, FSEntry.file "c" 1] = true
    ∧ (walkDirectory
        ⟨["repo"], 1000, false, false, fun _ => false, fun _ => true, ⟨20, 2, 1000⟩⟩
        ["repo"] [FSEntry.file "a" 1, FSEntry.file "b" 1, FSEntry.file "c" 1]).2.totalFiles = 2
    ∧ fileNodesList
        (walkDirectory
          ⟨["repo"], 1000, false, false, fun _ => false, fun _ => true, ⟨20, 2, 1000⟩⟩
          ["repo"] [FSEntry.file "a" 1, FSEntry.file "b" 1, FSEntry.file "c" 1]).1.children = 2 := by
  have h := max_files_cap_exact
    ⟨["repo"], 1000, false, false, fun _ => false, fun _ => true, ⟨20, 2, 1000⟩⟩
    ["repo"] [FSEntry.file "a" 1, FSEntry.file "b" 1, FSEntry.file "c" 1] (by rfl)
  exact ⟨rfl, by rfl, (h.2 (by rfl)).1⟩

end Gitingest.Ingestion

namespace Gitingest.Ingestion

lemma walkOut_eq {a1 a2 : List FileSystemNode} {b1 b2 c1 c2 d1 d2 : Nat}
    {e1 e2 : FileSystemStats} (ha : a1 = a2) (hb : b1 = b2) (hc : c1 = c2)
    (hd : d1 = d2) (he : e1 = e2) :
    (⟨a1, b1, c1, d1, e1⟩ : WalkOut) = ⟨a2, b2, c2, d2, e2⟩ := by
  subst ha
  subst hb
  subst hc
  subst hd
  subst he
  rfl

lemma walkOut_eq_mk {w : WalkOut} {a : List FileSystemNode} {b c d : Nat}
    {e : FileSystemStats} (ha : w.children = a) (hb : w.size = b)
    (hc : w.fileCount = c) (hd : w.dirCount = d) (he : w.stats = e) :
    w = ⟨a, b, c, d, e⟩ := by
  cases w
  subst ha
  subst hb
  subst hc
  subst hd
  subst he
  rfl

lemma process_entries_append (q : WalkQuery) (dirPath : List String)
    (depth : Nat) :
    ∀ (es1 es2 : List FSEntry) (stats : FileSystemStats),
      _process_entries q dirPath depth stats (es1 ++ es2) =
        ⟨(_process_entries q dirPath depth stats es1).children ++
            (_process_entries q dirPath depth
              (_process_entries q dirPath depth stats es1).stats es2).children,
          (_process_entries q dirPath depth stats es1).size +
            (_process_entries q dirPath depth
              (_process_entries q dirPath depth stats es1).stats es2).size,
          (_process_entries q dirPath depth stats es1).fileCount +
            (_process_entries q dirPath depth
              (_process_entries q dirPath depth stats es1).stats es2).fileCount,
          (_process_entries q dirPath depth stats es1).dirCount +
            (_process_entries q dirPath depth
              (_process_entries q dirPath depth stats es1).stats es2).dirCount,
          (_process_entries q dirPath depth
            (_process_entries q dirPath depth stats es1).stats es2).stats⟩ := by
  intro es1
  induction es1 with
  | nil =>
    intro es2 stats
    apply walkOut_eq_mk <;> simp [_process_entries]
  | cons e es1 ih =>
    intro es2 stats
    cases hch : (_process_entry q dirPath depth stats e).child with
    | none =>
      simp only [List.cons_append, _process_entries, hch, List.append_eq]
      rw [ih es2 (_process_entry q dirPath depth stats e).stats]
      apply walkOut_eq
      · rfl
      · dsimp only
        omega
      · dsimp only
        omega
      · dsimp only
        omega
      · rfl
    | some c =>
      simp only [List.cons_append, _process_entries, hch, List.append_eq]
      rw [ih es2 (_process_entry q dirPath depth stats e).stats]
      apply walkOut_eq
      · dsimp only
      · dsimp only
        omega
      · dsimp only
        omega
      · dsimp only
        omega
      · rfl

lemma replicate_symlink_process (q : WalkQuery) (dirPath : List String)
    (depth : Nat) (name : String) (hflt : ∀ p, filteredOut q p = false) :
    ∀ (n : Nat) (stats : FileSystemStats),
      _process_entries q dirPath depth stats
          (List.replicate n (FSEntry.symlink name)) =
        ⟨List.replicate n
            (FileSystemNode.mk name .SYMLINK (dirPath ++ [name]) 0 0 0 (depth + 1) []),
          0, n, 0, ⟨stats.totalFiles + n, stats.totalSize⟩⟩ := by
  intro n
  induction n with
  | zero =>
    intro stats
    apply walkOut_eq_mk <;> simp [_process_entries]
  | succ n ih =>
    intro stats
    rw [List.replicate_succ]
    simp only [_process_entries, _process_entry, hflt, Bool.false_eq_true,
      if_false, ih]
    apply walkOut_eq
    · rw [List.replicate_succ]
    · rfl
    · omega
    · rfl
    · show (⟨stats.totalFiles + 1 + n, stats.totalSize⟩ : FileSystemStats) = _
      ext
      · show stats.totalFiles + 1 + n = stats.totalFiles + (n + 1)
        omega
      · rfl

lemma keyLe_refl (x : FileSystemNode) : keyLe x x = true := by
  simp [keyLe]

lemma insertByKey_replicate (x : FileSystemNode) (hxx : keyLe x x = true) :
    ∀ k, insertByKey x (List.replicate k x) = List.replicate (k + 1) x := by
  intro k
  induction k with
  | zero => rfl
  | succ k ih =>
    rw [List.replicate_succ, insertByKey, if_pos hxx, ih,
      ← List.replicate_succ]

lemma foldl_insertByKey_replicate (x : FileSystemNode) (hxx : keyLe x x = true) :
    ∀ n k, (List.replicate n x).foldl (fun acc a => insertByKey a acc)
        (List.replicate k x) = List.replicate (n + k) x := by
  intro n
  induction n with
  | zero =>
    intro k
    simp
  | succ n ih =>
    intro k
    rw [List.replicate_succ, List.foldl_cons, insertByKey_replicate x hxx k,
      ih (k + 1)]
    congr 1
    omega

lemma sort_children_replicate (x : FileSystemNode) (hxx : keyLe x x = true)
    (n : Nat) : sort_children (List.replicate n x) = List.replicate n x := by
  have h := foldl_insertByKey_replicate x hxx n 0
  simpa [sort_children] using h

lemma fileNodesList_replicate_zero (x : FileSystemNode) (hx : fileNodes x = 0) :
    ∀ n, fileNodesList (List.replicate n x) = 0 := by
  intro n
  induction n with
  | zero => rfl
  | succ n ih =>
    rw [List.replicate_succ]
    simp [fileNodesList, hx, ih]

lemma walkDirectory_children_stats (q : WalkQuery) (rootPath : List String)
    (entries : List FSEntry)
    (h : limit_exceeded q.limits ⟨0, 0⟩ 0 = false) :
    (walkDirectory q rootPath entries).1.children =
        sort_children (_process_entries q rootPath 0 ⟨0, 0⟩ entries).children
      ∧ (walkDirectory q rootPath entries).2 =
        (_process_entries q rootPath 0 ⟨0, 0⟩ entries).stats := by
  constructor
  · simp only [walkDirectory, h, Bool.false_eq_true, if_false,
      FileSystemNode.children]
  · simp only [walkDirectory, h, Bool.false_eq_true, if_false]

/-- C4 counterexample: a traversal whose entries are 10 000 symlinks followed
by one regular file reaches the default `MAX_FILES` cap — the final
total-files counter equals 10 000 and the trailing file is refused — yet the
returned tree contains 0 File nodes, not 10 000: the entries that filled the
counter became Symlink nodes. -/
theorem max_files_cap_symlink_counterexample :
    (walkDirectory
        ⟨["repo"], 10485760, false, false, fun _ => false, fun _ => true,
          defaultLimits⟩
        ["repo"]
        (List.replicate 10000 (FSEntry.symlink "s") ++ [FSEntry.file "f" 1])).2.totalFiles
      = defaultLimits.maxFiles
    ∧ fileNodesList
        (walkDirectory
          ⟨["repo"], 10485760, false, false, fun _ => false, fun _ => true,
            defaultLimits⟩
          ["repo"]
          (List.replicate 10000 (FSEntry.symlink "s") ++ [FSEntry.file "f" 1])).1.children
      = 0
    ∧ (0 : Nat) ≠ defaultLimits.maxFiles := by
  have hfile : _process_entries
      ⟨["repo"], 10485760, false, false, fun _ => false, fun _ => true,
        defaultLimits⟩
      ["repo"] 0 ⟨10000, 0⟩ [FSEntry.file "f" 1] =
      ⟨[], 0, 0, 0, ⟨10000, 0⟩⟩ := rfl
  have ho : _process_entries
      ⟨["repo"], 10485760, false, false, fun _ => false, fun _ => true,
        defaultLimits⟩
      ["repo"] 0 ⟨0, 0⟩
      (List.replicate 10000 (FSEntry.symlink "s") ++ [FSEntry.file "f" 1]) =
      ⟨List.replicate 10000
          (FileSystemNode.mk "s" .SYMLINK ["repo", "s"] 0 0 0 1 []),
        0, 10000, 0, ⟨10000, 0⟩⟩ := by
    rw [process_entries_append,
      replicate_symlink_process
        ⟨["repo"], 10485760, false, false, fun _ => false, fun _ => true,
          defaultLimits⟩
        ["repo"] 0 "s" (fun p => rfl) 10000 ⟨0, 0⟩]
    apply walkOut_eq
    · show List.replicate 10000
          (FileSystemNode.mk "s" .SYMLINK ["repo", "s"] 0 0 0 1 []) ++
          (_process_entries
            ⟨["repo"], 10485760, false, false, fun _ => false, fun _ => true,
              defaultLimits⟩
            ["repo"] 0 ⟨10000, 0⟩ [FSEntry.file "f" 1]).children = _
      rw [hfile]
      exact List.append_nil _
    · show 0 + (_process_entries
          ⟨["repo"], 10485760, false, false, fun _ => false, fun _ => true,
            defaultLimits⟩
          ["repo"] 0 ⟨10000, 0⟩ [FSEntry.file "f" 1]).size = 0
      rw [hfile]
      rfl
    · show 10000 + (_process_entries
          ⟨["repo"], 10485760, false, false, fun _ => false, fun _ => true,
            defaultLimits⟩
          ["repo"] 0 ⟨10000, 0⟩ [FSEntry.file "f" 1]).fileCount = 10000
      rw [hfile]
      rfl
    · show 0 + (_process_entries
          ⟨["repo"], 10485760, false, false, fun _ => false, fun _ => true,
            defaultLimits⟩
          ["repo"] 0 ⟨10000, 0⟩ [FSEntry.file "f" 1]).dirCount = 0
      rw [hfile]
      rfl
    · show (_process_entries
          ⟨["repo"], 10485760, false, false, fun _ => false, fun _ => true,
            defaultLimits⟩
          ["repo"] 0 ⟨10000, 0⟩ [FSEntry.file "f" 1]).stats = _
      rw [hfile]
  have hstats : (walkDirectory
      ⟨["repo"], 10485760, false, false, fun _ => false, fun _ => true,
        defaultLimits⟩
      ["repo"]
      (List.replicate 10000 (FSEntry.symlink "s") ++ [FSEntry.file "f" 1])).2 =
      (⟨10000, 0⟩ : FileSystemStats) := by
    rw [(walkDirectory_children_stats
        ⟨["repo"], 10485760, false, false, fun _ => false, fun _ => true,
          defaultLimits⟩
        ["repo"]
        (List.replicate 10000 (FSEntry.symlink "s") ++ [FSEntry.file "f" 1])
        rfl).2, ho]
  have hchildren : (walkDirectory
      ⟨["repo"], 10485760, false, false, fun _ => false, fun _ => true,
        defaultLimits⟩
      ["repo"]
      (List.replicate 10000 (FSEntry.symlink "s") ++ [FSEntry.file "f" 1])).1.children =
      List.replicate 10000
        (FileSystemNode.mk "s" .SYMLINK ["repo", "s"] 0 0 0 1 []) := by
    rw [(walkDirectory_children_stats
        ⟨["repo"], 10485760, false, false, fun _ => false, fun _ => true,
          defaultLimits⟩
        ["repo"]
        (List.replicate 10000 (FSEntry.symlink "s") ++ [FSEntry.file "f" 1])
        rfl).1, ho]
    exact sort_children_replicate
      (FileSystemNode.mk "s" .SYMLINK ["repo", "s"] 0 0 0 1 []) (keyLe_refl _) 10000
  refine ⟨?_, ?_, by decide⟩
  · rw [hstats]
    rfl
  · rw [hchildren]
    exact fileNodesList_replicate_zero
      (FileSystemNode.mk "s" .SYMLINK ["repo", "s"] 0 0 0 1 []) rfl 10000

end Gitingest.Ingestion
